import Mathlib

/-!
PollSet of roscpp (`src/core/roscpp/src/libros/poll_set.cpp`)

A shallow embedding of the `ros::PollSet` class and theorems about its
mutation API (`addSocket`, `delSocket`, `addEvents`, `delEvents`), the snapshot
rebuild (`createNativePollset`) and the dispatch loop of `update`.

Modelling conventions

* C `int` values (descriptors, event masks) are `Int`; the bitwise operators
  `&`, `|`, `~` are the two's-complement operations `bitAnd`, `bitOr`, `bitNot`
  (shown below to agree with Mathlib's `Int.land`, `Int.lor`, `Int.lnot`).
  None of the three can overflow.
* `short` fields of `struct pollfd` are `Int`; a store of an `int` into such a
  field goes through `toShort` (wrap-around to 16 bits).
* `std::map<int, SocketInfo>` is its in-order sequence of (key, value) pairs,
  a list whose keys are strictly ascending (`keysAscending`).
* `boost::function<void(int)>` is `Option Callback` (`none` is the empty
  function object), `TransportPtr` is an optional opaque handle.
* The mutexes and `signal()` (a one byte write to the pipe) touch no member
  that the embedding tracks and are left out.
* `poll` and the bodies of user callbacks are outside the class: the first is
  an input (`PollOutcome`), the second an oracle (`Behaviour`) that tells which
  PollSet operations a callback performs when it runs.
-/

namespace ros

/-! ## Machine integers -/

/-- Bitwise AND of two C `int` values (two's complement). -/
def bitAnd : Int → Int → Int
  | Int.ofNat m, Int.ofNat n => Int.ofNat (m &&& n)
  | Int.ofNat m, Int.negSucc n => Int.ofNat (m ^^^ (m &&& n))
  | Int.negSucc m, Int.ofNat n => Int.ofNat (n ^^^ (n &&& m))
  | Int.negSucc m, Int.negSucc n => Int.negSucc (m ||| n)

/-- Bitwise OR of two C `int` values (two's complement). -/
def bitOr : Int → Int → Int
  | Int.ofNat m, Int.ofNat n => Int.ofNat (m ||| n)
  | Int.ofNat m, Int.negSucc n => Int.negSucc (n ^^^ (n &&& m))
  | Int.negSucc m, Int.ofNat n => Int.negSucc (m ^^^ (m &&& n))
  | Int.negSucc m, Int.negSucc n => Int.negSucc (m &&& n)

/-- Bitwise complement `~x` of a C `int` value (two's complement). -/
def bitNot : Int → Int
  | Int.ofNat m => Int.negSucc m
  | Int.negSucc m => Int.ofNat m

/-- Conversion of an `int` to `short` (16 bit, wrap-around). -/
def toShort (x : Int) : Int := (x + 32768) % 65536 - 32768

/-- `POLLIN` (01): there is data to read. -/
def POLLIN : Int := 1
/-- `POLLPRI` (02): there is urgent data to read. -/
def POLLPRI : Int := 2
/-- `POLLOUT` (04): writing now will not block. -/
def POLLOUT : Int := 4
/-- `POLLERR` (010): error condition. -/
def POLLERR : Int := 8
/-- `POLLHUP` (020): hung up. -/
def POLLHUP : Int := 16
/-- `POLLNVAL` (040): invalid polling request. -/
def POLLNVAL : Int := 32

/-! ## Data model -/

/-- Targets a `SocketUpdateFunc` can be bound to: the PollSet's own
`onLocalPipeEvents`, or a function of the caller, named by a number. -/
inductive Callback where
  | onLocalPipeEvents : Callback
  | user (id : Nat) : Callback
deriving DecidableEq, Repr

/-- Modelled from the spec: the typedef `SocketUpdateFunc` of `ros/poll_set.h`
(the header is not part of the sources read here), the spec's "function taking
a bitmask of fired events". A `boost::function<void(int)>`; `none` is the empty
function object, which `update` tests with `func &&`. -/
abbrev SocketUpdateFunc := Option Callback

/-- Modelled from the spec: the typedef `TransportPtr` of
`ros/transport/transport.h` (not part of the sources read here), the spec's
"opaque shared handle" that the class stores and never inspects; `none` is the
null pointer. -/
abbrev TransportPtr := Option Nat

/-- Modelled from the spec: `struct SocketInfo` of `ros/poll_set.h` (not part of
the sources read here), the spec's fd, interest, callback and transport under
the member names `poll_set.cpp` uses. `fd_` and `events_` are `int`:
`addSocket` stores its `int fd`, `addEvents` ors an `int` into `events_`, and
`update` reads `events_` into `int events`. -/
structure SocketInfo where
  transport_ : TransportPtr
  func_ : SocketUpdateFunc
  fd_ : Int
  events_ : Int
deriving DecidableEq, Repr

/-- `struct pollfd`: `int fd; short int events; short int revents;`. -/
structure pollfd where
  fd : Int
  events : Int
  revents : Int
deriving DecidableEq, Repr

/-- Modelled from the spec: the typedef `M_SocketInfo` of `ros/poll_set.h` (not
part of the sources read here), the spec's registry "mapping fd to SocketInfo,
keys unique"; `poll_set.cpp` uses it as a `std::map` keyed by `int` (`insert` of
a pair, `find`, `erase`, in-order iteration). The list is that in-order
sequence. -/
abbrev M_SocketInfo := List (Int × SocketInfo)

/-- The representation invariant of `std::map`: keys strictly ascending. -/
def keysAscending (m : M_SocketInfo) : Prop :=
  List.Pairwise (fun a b => a < b) (m.map Prod.fst)

instance (m : M_SocketInfo) : Decidable (keysAscending m) := by
  unfold keysAscending; infer_instance

/-- `std::map::find`: the value stored under `fd`, if any. -/
def mapFind : M_SocketInfo → Int → Option SocketInfo
  | [], _ => none
  | (k, v) :: rest, fd => if k = fd then some v else mapFind rest fd

/-- `std::map::insert(std::make_pair(fd, info))`: searches the position of `fd`
by key comparison; an existing element with that key blocks the insertion.
Returns the map and the `.second` of the C++ result. -/
def mapInsert : M_SocketInfo → Int → SocketInfo → M_SocketInfo × Bool
  | [], fd, info => ([(fd, info)], true)
  | (k, v) :: rest, fd, info =>
    if fd < k then ((fd, info) :: (k, v) :: rest, true)
    else if fd = k then ((k, v) :: rest, false)
    else ((k, v) :: (mapInsert rest fd info).1, (mapInsert rest fd info).2)

/-- `std::map::erase(it)` for the iterator `it = find(fd)`. -/
def mapErase : M_SocketInfo → Int → M_SocketInfo
  | [], _ => []
  | (k, v) :: rest, fd => if k = fd then rest else (k, v) :: mapErase rest fd

/-- An assignment through the iterator `it = find(fd)`: `it->second = f (it->second)`. -/
def mapModify : M_SocketInfo → Int → (SocketInfo → SocketInfo) → M_SocketInfo
  | [], _, _ => []
  | (k, v) :: rest, fd, f =>
    if k = fd then (k, f v) :: rest else (k, v) :: mapModify rest fd f

/-- Modelled from the spec: the data members of `class PollSet`, declared in
`ros/poll_set.h` (not part of the sources read here): the spec's registry,
changed flag, cached native poll array and the two ends of the wakeup pipe,
under the member names `poll_set.cpp` uses. -/
structure PollSet where
  socket_info_ : M_SocketInfo
  sockets_changed_ : Bool
  ufds_ : List pollfd
  signal_pipe_ : Int × Int
deriving DecidableEq, Repr

/-- Every stored `SocketInfo` carries its own key in `fd_`. -/
def fdMatchesKey (m : M_SocketInfo) : Prop := ∀ p ∈ m, p.2.fd_ = p.1

instance (m : M_SocketInfo) : Decidable (fdMatchesKey m) := by
  unfold fdMatchesKey; infer_instance

/-! ## Mutation API -/

/-- `PollSet::addSocket`. -/
def addSocket (s : PollSet) (fd : Int) (update_func : SocketUpdateFunc)
    (transport : TransportPtr) : Bool × PollSet :=
  let info : SocketInfo :=
    { fd_ := fd, events_ := 0, transport_ := transport, func_ := update_func }
  let r := mapInsert s.socket_info_ fd info
  if !r.2 then (false, s)
  else (true, { s with socket_info_ := r.1, sockets_changed_ := true })

/-- `PollSet::delSocket`. -/
def delSocket (s : PollSet) (fd : Int) : Bool × PollSet :=
  if fd < 0 then (false, s)
  else
    match mapFind s.socket_info_ fd with
    | some _ =>
      (true, { s with socket_info_ := mapErase s.socket_info_ fd, sockets_changed_ := true })
    | none => (false, s)

/-- `PollSet::addEvents`. -/
def addEvents (s : PollSet) (sock : Int) (events : Int) : Bool × PollSet :=
  match mapFind s.socket_info_ sock with
  | none => (false, s)
  | some _ =>
    let m := mapModify s.socket_info_ sock (fun i => { i with events_ := bitOr i.events_ events })
    (true, { s with socket_info_ := m })

/-- `PollSet::delEvents`. -/
def delEvents (s : PollSet) (sock : Int) (events : Int) : Bool × PollSet :=
  match mapFind s.socket_info_ sock with
  | some _ =>
    let m := mapModify s.socket_info_ sock
      (fun i => { i with events_ := bitAnd i.events_ (bitNot events) })
    (true, { s with socket_info_ := m })
  | none => (false, s)

/-- `PollSet::PollSet()` once `pipe` has handed out the descriptors `r` (read
end) and `w` (write end). -/
def PollSet.new (r w : Int) : PollSet :=
  let s0 : PollSet :=
    { socket_info_ := [], sockets_changed_ := false, ufds_ := [], signal_pipe_ := (r, w) }
  let s1 := (addSocket s0 r (some Callback.onLocalPipeEvents) none).2
  (addEvents s1 r POLLIN).2

/-! ## Snapshot rebuild -/

/-- `std::vector<pollfd>::resize(n)`: truncates, or pads with zeroed elements. -/
def resize (v : List pollfd) (n : Nat) : List pollfd :=
  v.take n ++ List.replicate (n - v.length) { fd := 0, events := 0, revents := 0 }

/-- The loop of `createNativePollset`: walks the map in key order, writing
slot `i`, `i + 1`, ... of the array. -/
def fillSlots : M_SocketInfo → Nat → List pollfd → List pollfd
  | [], _, ufds => ufds
  | (_, info) :: rest, i, ufds =>
    fillSlots rest (i + 1)
      (ufds.set i { fd := info.fd_, events := toShort info.events_, revents := 0 })

/-- `PollSet::createNativePollset`. -/
def createNativePollset (s : PollSet) : PollSet :=
  if !s.sockets_changed_ then s
  else { s with ufds_ := fillSlots s.socket_info_ 0 (resize s.ufds_ s.socket_info_.length) }

/-! ## Poll and dispatch -/

/-- One call of a member function of the mutation API. -/
inductive Op where
  | addSocket (fd : Int) (update_func : SocketUpdateFunc) (transport : TransportPtr) : Op
  | delSocket (fd : Int) : Op
  | addEvents (sock : Int) (events : Int) : Op
  | delEvents (sock : Int) (events : Int) : Op
deriving DecidableEq, Repr

/-- Runs one call, dropping its return value. -/
def applyOp (s : PollSet) : Op → PollSet
  | Op.addSocket fd f t => (addSocket s fd f t).2
  | Op.delSocket fd => (delSocket s fd).2
  | Op.addEvents sock ev => (addEvents s sock ev).2
  | Op.delEvents sock ev => (delEvents s sock ev).2

/-- Runs a sequence of calls from left to right. -/
def applyOps (s : PollSet) (ops : List Op) : PollSet := ops.foldl applyOp s

/-- What the callbacks of the caller do: given the callback's number, the mask
it is handed and the PollSet at that moment, the calls it makes on the PollSet. -/
abbrev Behaviour := Nat → Int → PollSet → List Op

/-- The calls a callback makes on the PollSet. `PollSet::onLocalPipeEvents`
only reads from the pipe. -/
def callbackOps (beh : Behaviour) : Callback → Int → PollSet → List Op
  | Callback.onLocalPipeEvents, _, _ => []
  | Callback.user id, events, s => beh id events s

/-- One callback invocation made by `update`. -/
structure Invocation where
  slot : Nat
  fd : Int
  func : Callback
  arg : Int
deriving DecidableEq, Repr

/-- What `poll` did: its return value and the `revents` it stored, slot by
slot (slots past the end of the list keep what they held). -/
structure PollOutcome where
  ret : Int
  revents : List Int
deriving DecidableEq, Repr

/-- The stores of `poll` into the `revents` fields of the array. -/
def pollWrite : List pollfd → List Int → List pollfd
  | [], _ => []
  | p :: ps, [] => p :: ps
  | p :: ps, r :: rs => { p with revents := r } :: pollWrite ps rs

/-- The statement `ufds_[i].revents = 0`. -/
def clearRevents (s : PollSet) (i : Nat) : PollSet :=
  { s with ufds_ := s.ufds_.modify (fun p => { p with revents := 0 }) i }

/-- The body of the `for` loop of `update` for slot `i`: the state it leaves
and the callback invocation it made, if any. -/
def dispatchSlot (beh : Behaviour) (s : PollSet) (i : Nat) : PollSet × List Invocation :=
  match s.ufds_[i]? with
  | none => (s, [])
  | some pfd =>
    if pfd.revents = 0 then (s, [])
    else
      match mapFind s.socket_info_ pfd.fd with
      | none => (s, [])
      | some info =>
        let events := info.events_
        match info.func_ with
        | some func =>
          if bitAnd events pfd.revents ≠ 0 then
            let arg := bitAnd pfd.revents events
            (clearRevents (applyOps s (callbackOps beh func arg s)) i,
              [{ slot := i, fd := pfd.fd, func := func, arg := arg }])
          else (clearRevents s i, [])
        | none => (clearRevents s i, [])

/-- The `for` loop of `update` over the slots `0, 1, ..., n - 1`: the final
state and the invocations made, in order. -/
def dispatchLoop (beh : Behaviour) (s : PollSet) : Nat → PollSet × List Invocation
  | 0 => (s, [])
  | n + 1 =>
    let before := dispatchLoop beh s n
    let step := dispatchSlot beh before.1 n
    (step.1, before.2 ++ step.2)

/-- `PollSet::update`. -/
def update (beh : Behaviour) (s : PollSet) (os : PollOutcome) : PollSet × List Invocation :=
  let s1 := createNativePollset s
  let ufds_count := s1.ufds_.length
  let s2 := { s1 with ufds_ := pollWrite s1.ufds_ os.revents }
  if os.ret < 0 then (s2, [])
  else if os.ret > 0 then dispatchLoop beh s2 ufds_count
  else (s2, [])

/-! ## Sequences of calls -/

/-- One call made on a PollSet from outside: a call of the mutation API, or
`update` together with what `poll` reports and what the callbacks do. -/
inductive Call where
  | op (o : Op) : Call
  | update (beh : Behaviour) (os : PollOutcome) : Call

/-- Runs one call and keeps the PollSet it leaves. -/
def runCall (s : PollSet) : Call → PollSet
  | Call.op o => applyOp s o
  | Call.update beh os => (update beh s os).1

/-- Runs a sequence of calls from left to right. -/
def runCalls (s : PollSet) (cs : List Call) : PollSet := cs.foldl runCall s

/-- The return value of one call of the mutation API. -/
def opResult (s : PollSet) : Op → Bool
  | Op.addSocket fd f t => (addSocket s fd f t).1
  | Op.delSocket fd => (delSocket s fd).1
  | Op.addEvents sock ev => (addEvents s sock ev).1
  | Op.delEvents sock ev => (delEvents s sock ev).1

/-- The descriptors of the `addSocket` calls of a sequence that returned true,
in call order. -/
def acceptedAdds : PollSet → List Op → List Int
  | _, [] => []
  | s, Op.addSocket fd f t :: rest =>
    if (addSocket s fd f t).1 then fd :: acceptedAdds (addSocket s fd f t).2 rest
    else acceptedAdds (addSocket s fd f t).2 rest
  | s, Op.delSocket fd :: rest => acceptedAdds (delSocket s fd).2 rest
  | s, Op.addEvents sock ev :: rest => acceptedAdds (addEvents s sock ev).2 rest
  | s, Op.delEvents sock ev :: rest => acceptedAdds (delEvents s sock ev).2 rest

/-- The descriptors of the `delSocket` calls of a sequence that returned true,
in call order. -/
def acceptedDels : PollSet → List Op → List Int
  | _, [] => []
  | s, Op.addSocket fd f t :: rest => acceptedDels (addSocket s fd f t).2 rest
  | s, Op.delSocket fd :: rest =>
    if (delSocket s fd).1 then fd :: acceptedDels (delSocket s fd).2 rest
    else acceptedDels (delSocket s fd).2 rest
  | s, Op.addEvents sock ev :: rest => acceptedDels (addEvents s sock ev).2 rest
  | s, Op.delEvents sock ev :: rest => acceptedDels (delEvents s sock ev).2 rest

/-- The last call of a sequence on descriptor `fd` that was an `addSocket` or a
`delSocket` and returned true: `some true` for an add, `some false` for a del,
`acc` when the sequence has none. -/
def lastAccepted (fd : Int) : PollSet → List Op → Option Bool → Option Bool
  | _, [], acc => acc
  | s, Op.addSocket fd2 f t :: rest, acc =>
    lastAccepted fd (addSocket s fd2 f t).2 rest
      (if fd2 = fd ∧ (addSocket s fd2 f t).1 = true then some true else acc)
  | s, Op.delSocket fd2 :: rest, acc =>
    lastAccepted fd (delSocket s fd2).2 rest
      (if fd2 = fd ∧ (delSocket s fd2).1 = true then some false else acc)
  | s, Op.addEvents sock ev :: rest, acc => lastAccepted fd (addEvents s sock ev).2 rest acc
  | s, Op.delEvents sock ev :: rest, acc => lastAccepted fd (delEvents s sock ev).2 rest acc

/-- A call that takes `POLLIN` or the whole entry away from descriptor `r`:
`delSocket r`, or `delEvents r mask` with the `POLLIN` bit in `mask`. -/
def strikesPipe (r : Int) : Op → Bool
  | Op.delSocket fd => decide (fd = r)
  | Op.delEvents sock ev => decide (sock = r) && ev.testBit 0
  | _ => false

/-- The mask of an `addEvents` call lies within `POLLIN | POLLPRI | POLLOUT`;
true of every other call. -/
def addsWithin7 : Op → Bool
  | Op.addEvents _ ev => decide (bitAnd ev 7 = ev)
  | _ => true

/-- An `addSocket` call passes a descriptor that is not negative; true of every
other call. -/
def addsNonneg : Op → Bool
  | Op.addSocket fd _ _ => decide (0 ≤ fd)
  | _ => true

/-! ## Bit operations agree with the library's -/

theorem ldiff_eq_xor_and (m n : Nat) : Nat.ldiff m n = m ^^^ (m &&& n) := by
  apply Nat.eq_of_testBit_eq
  intro i
  rw [Nat.testBit_ldiff, Nat.testBit_xor, Nat.testBit_and]
  cases m.testBit i <;> cases n.testBit i <;> rfl

theorem bitAnd_eq_land (a b : Int) : bitAnd a b = Int.land a b := by
  cases a <;> cases b <;> simp [bitAnd, Int.land, ldiff_eq_xor_and]

theorem bitOr_eq_lor (a b : Int) : bitOr a b = Int.lor a b := by
  cases a <;> cases b <;> simp [bitOr, Int.lor, ldiff_eq_xor_and]

theorem bitNot_eq_lnot (a : Int) : bitNot a = Int.lnot a := by
  cases a <;> simp [bitNot, Int.lnot]

theorem testBit_bitAnd (a b : Int) (k : Nat) :
    (bitAnd a b).testBit k = (a.testBit k && b.testBit k) := by
  rw [bitAnd_eq_land, Int.testBit_land]

theorem testBit_bitOr (a b : Int) (k : Nat) :
    (bitOr a b).testBit k = (a.testBit k || b.testBit k) := by
  rw [bitOr_eq_lor, Int.testBit_lor]

theorem testBit_bitNot (a : Int) (k : Nat) : (bitNot a).testBit k = !a.testBit k := by
  rw [bitNot_eq_lnot, Int.testBit_lnot]

theorem testBit_high_false (m n : Nat) : m.testBit (m + n) = false :=
  Nat.testBit_lt_two_pow
    (lt_of_lt_of_le (Nat.lt_two_pow m) (Nat.pow_le_pow_right (by decide) (Nat.le_add_right m n)))

/-- Two integers with the same bits are equal. -/
theorem int_eq_of_testBit_eq (a b : Int) (h : ∀ k, a.testBit k = b.testBit k) : a = b := by
  cases a with
  | ofNat m =>
    cases b with
    | ofNat n =>
      congr 1
      exact Nat.eq_of_testBit_eq h
    | negSucc n =>
      exfalso
      have hk := h (m + n)
      simp only [Int.testBit] at hk
      rw [testBit_high_false m n, Nat.add_comm, testBit_high_false n m] at hk
      exact absurd hk (by decide)
  | negSucc m =>
    cases b with
    | ofNat n =>
      exfalso
      have hk := h (m + n)
      simp only [Int.testBit] at hk
      rw [testBit_high_false m n, Nat.add_comm, testBit_high_false n m] at hk
      exact absurd hk (by decide)
    | negSucc n =>
      congr 1
      apply Nat.eq_of_testBit_eq
      intro k
      have hk := h k
      simp only [Int.testBit] at hk
      cases hm : m.testBit k <;> cases hn : n.testBit k <;> simp [hm, hn] at hk ⊢

theorem testBit_zero_int (k : Nat) : (0 : Int).testBit k = false := by
  show Int.testBit (Int.ofNat 0) k = false
  simp [Int.testBit]

/-- Clearing the bits of `mask` leaves no bit of `mask` behind. -/
theorem bitAnd_bitNot_disjoint (e mask : Int) : bitAnd (bitAnd e (bitNot mask)) mask = 0 := by
  apply int_eq_of_testBit_eq
  intro k
  rw [testBit_bitAnd, testBit_bitAnd, testBit_bitNot, testBit_zero_int]
  cases e.testBit k <;> cases mask.testBit k <;> rfl

theorem bitAnd_comm (a b : Int) : bitAnd a b = bitAnd b a := by
  apply int_eq_of_testBit_eq
  intro k
  rw [testBit_bitAnd, testBit_bitAnd, Bool.and_comm]

/-! ## The map operations -/

theorem keysAscending_tail {p : Int × SocketInfo} {rest : M_SocketInfo}
    (h : keysAscending (p :: rest)) : keysAscending rest := by
  unfold keysAscending at h ⊢
  rw [List.map_cons, List.pairwise_cons] at h
  exact h.2

theorem keysAscending_head_lt {p : Int × SocketInfo} {rest : M_SocketInfo}
    (h : keysAscending (p :: rest)) : ∀ q ∈ rest, p.1 < q.1 := by
  unfold keysAscending at h
  rw [List.map_cons, List.pairwise_cons] at h
  intro q hq
  exact h.1 q.1 (List.mem_map_of_mem Prod.fst hq)

theorem keysAscending_cons {p : Int × SocketInfo} {rest : M_SocketInfo}
    (h1 : ∀ q ∈ rest, p.1 < q.1) (h2 : keysAscending rest) : keysAscending (p :: rest) := by
  unfold keysAscending at h2 ⊢
  rw [List.map_cons, List.pairwise_cons]
  refine ⟨?_, h2⟩
  intro a ha
  obtain ⟨q, hq, rfl⟩ := List.mem_map.1 ha
  exact h1 q hq

theorem mapFind_mem {m : M_SocketInfo} {fd : Int} {v : SocketInfo}
    (h : mapFind m fd = some v) : (fd, v) ∈ m := by
  induction m with
  | nil => simp [mapFind] at h
  | cons p rest ih =>
    obtain ⟨k, w⟩ := p
    simp only [mapFind] at h
    split at h
    · rename_i hk
      subst hk
      cases h
      exact List.mem_cons_self _ _
    · exact List.mem_cons_of_mem _ (ih h)

theorem mapFind_none_of_forall_ne {m : M_SocketInfo} {fd : Int}
    (h : ∀ q ∈ m, q.1 ≠ fd) : mapFind m fd = none := by
  induction m with
  | nil => rfl
  | cons p rest ih =>
    obtain ⟨k, w⟩ := p
    simp only [mapFind]
    rw [if_neg (h (k, w) (List.mem_cons_self _ _))]
    exact ih (fun q hq => h q (List.mem_cons_of_mem _ hq))

theorem mapFind_none_not_mem {m : M_SocketInfo} {fd : Int}
    (h : mapFind m fd = none) : ∀ q ∈ m, q.1 ≠ fd := by
  induction m with
  | nil => intro q hq; cases hq
  | cons p rest ih =>
    obtain ⟨k, w⟩ := p
    simp only [mapFind] at h
    split at h
    · cases h
    · rename_i hk
      intro q hq
      rcases List.mem_cons.1 hq with rfl | hq
      · exact hk
      · exact ih h q hq

/-- Inserting under a key that is present changes nothing. -/
theorem mapInsert_present {m : M_SocketInfo} {fd : Int} {v : SocketInfo} (info : SocketInfo)
    (hm : keysAscending m) (h : mapFind m fd = some v) : mapInsert m fd info = (m, false) := by
  induction m with
  | nil => simp [mapFind] at h
  | cons p rest ih =>
    obtain ⟨k, w⟩ := p
    simp only [mapFind] at h
    simp only [mapInsert]
    split at h
    · rename_i hk
      subst hk
      simp
    · rename_i hk
      have hlt : k < fd := keysAscending_head_lt hm (fd, v) (mapFind_mem h)
      rw [if_neg (not_lt.2 (le_of_lt hlt)), if_neg (fun e => hk e.symm),
        ih (keysAscending_tail hm) h]

theorem mapInsert_absent_second {m : M_SocketInfo} {fd : Int} (info : SocketInfo)
    (h : mapFind m fd = none) : (mapInsert m fd info).2 = true := by
  induction m with
  | nil => rfl
  | cons p rest ih =>
    obtain ⟨k, w⟩ := p
    simp only [mapFind] at h
    simp only [mapInsert]
    split at h
    · cases h
    · rename_i hk
      split
      · rfl
      · rw [if_neg (fun e => hk e.symm)]
        exact ih h

theorem mapInsert_absent_perm {m : M_SocketInfo} {fd : Int} (info : SocketInfo)
    (h : mapFind m fd = none) : List.Perm (mapInsert m fd info).1 ((fd, info) :: m) := by
  induction m with
  | nil => exact List.Perm.refl _
  | cons p rest ih =>
    obtain ⟨k, w⟩ := p
    simp only [mapFind] at h
    simp only [mapInsert]
    split at h
    · cases h
    · rename_i hk
      split
      · exact List.Perm.refl _
      · rw [if_neg (fun e => hk e.symm)]
        exact List.Perm.trans (List.Perm.cons _ (ih h)) (List.Perm.swap _ _ _)

theorem mapInsert_mem {m : M_SocketInfo} {fd : Int} {info : SocketInfo} {q : Int × SocketInfo}
    (hq : q ∈ (mapInsert m fd info).1) : q = (fd, info) ∨ q ∈ m := by
  induction m with
  | nil =>
    simp only [mapInsert, List.mem_singleton] at hq
    exact Or.inl hq
  | cons p rest ih =>
    obtain ⟨k, w⟩ := p
    simp only [mapInsert] at hq
    split at hq
    · rcases List.mem_cons.1 hq with h | h
      · exact Or.inl h
      · exact Or.inr h
    · split at hq
      · exact Or.inr hq
      · rcases List.mem_cons.1 hq with h | h
        · exact Or.inr (h ▸ List.mem_cons_self _ _)
        · rcases ih h with h | h
          · exact Or.inl h
          · exact Or.inr (List.mem_cons_of_mem _ h)

theorem mapInsert_keysAscending {m : M_SocketInfo} (fd : Int) (info : SocketInfo)
    (hm : keysAscending m) : keysAscending (mapInsert m fd info).1 := by
  induction m with
  | nil => simp [mapInsert, keysAscending]
  | cons p rest ih =>
    obtain ⟨k, w⟩ := p
    simp only [mapInsert]
    split
    · rename_i hlt
      apply keysAscending_cons _ hm
      intro q hq
      rcases List.mem_cons.1 hq with rfl | hq
      · exact hlt
      · exact lt_trans hlt (keysAscending_head_lt hm q hq)
    · rename_i hnlt
      split
      · exact hm
      · rename_i hne
        apply keysAscending_cons _ (ih (keysAscending_tail hm))
        intro q hq
        rcases mapInsert_mem hq with rfl | hq
        · exact lt_of_le_of_ne (not_lt.1 hnlt) (fun e => hne e.symm)
        · exact keysAscending_head_lt hm q hq

theorem mapFind_mapInsert_absent {m : M_SocketInfo} {fd : Int} (info : SocketInfo)
    (h : mapFind m fd = none) (fd2 : Int) :
    mapFind (mapInsert m fd info).1 fd2 = if fd2 = fd then some info else mapFind m fd2 := by
  induction m with
  | nil =>
    simp only [mapInsert, mapFind]
    by_cases e : fd = fd2
    · simp [e]
    · have e2 : ¬ fd2 = fd := fun e2 => e e2.symm
      simp [e, e2]
  | cons p rest ih =>
    obtain ⟨k, w⟩ := p
    simp only [mapFind] at h
    split at h
    · cases h
    · rename_i hk
      simp only [mapInsert]
      split
      · simp only [mapFind]
        by_cases e : fd = fd2
        · simp [e]
        · have e2 : ¬ fd2 = fd := fun e2 => e e2.symm
          simp [e, e2]
      · rw [if_neg (fun e => hk e.symm)]
        simp only [mapFind]
        by_cases e : k = fd2
        · have : fd2 ≠ fd := fun e2 => hk (e.trans e2)
          simp [e, this]
        · simp only [if_neg e]
          exact ih h
theorem mapFind_mapErase_ne (m : M_SocketInfo) {fd fd2 : Int} (hne : fd2 ≠ fd) :
    mapFind (mapErase m fd) fd2 = mapFind m fd2 := by
  induction m with
  | nil => rfl
  | cons p rest ih =>
    obtain ⟨k, w⟩ := p
    simp only [mapErase]
    split
    · rename_i hk
      subst hk
      simp only [mapFind]
      rw [if_neg (fun e => hne e.symm)]
    · simp only [mapFind]
      rw [ih]

theorem mapFind_mapErase_self {m : M_SocketInfo} (fd : Int) (hm : keysAscending m) :
    mapFind (mapErase m fd) fd = none := by
  induction m with
  | nil => rfl
  | cons p rest ih =>
    obtain ⟨k, w⟩ := p
    simp only [mapErase]
    split
    · rename_i hk
      subst hk
      exact mapFind_none_of_forall_ne
        (fun q hq => ne_of_gt (keysAscending_head_lt hm q hq))
    · rename_i hk
      simp only [mapFind]
      rw [if_neg hk]
      exact ih (keysAscending_tail hm)

theorem mapErase_sublist (m : M_SocketInfo) (fd : Int) : List.Sublist (mapErase m fd) m := by
  induction m with
  | nil => exact List.Sublist.refl _
  | cons p rest ih =>
    obtain ⟨k, w⟩ := p
    simp only [mapErase]
    split
    · exact List.sublist_cons_self _ _
    · exact List.Sublist.cons₂ _ ih

theorem mapErase_keysAscending {m : M_SocketInfo} (fd : Int) (hm : keysAscending m) :
    keysAscending (mapErase m fd) := by
  unfold keysAscending at hm ⊢
  exact List.Pairwise.sublist (List.Sublist.map Prod.fst (mapErase_sublist m fd)) hm

theorem mapErase_perm {m : M_SocketInfo} {fd : Int} {v : SocketInfo}
    (h : mapFind m fd = some v) : List.Perm m ((fd, v) :: mapErase m fd) := by
  induction m with
  | nil => simp [mapFind] at h
  | cons p rest ih =>
    obtain ⟨k, w⟩ := p
    simp only [mapFind] at h
    simp only [mapErase]
    split at h
    · rename_i hk
      subst hk
      cases h
      rw [if_pos rfl]
    · rename_i hk
      rw [if_neg hk]
      exact List.Perm.trans (List.Perm.cons _ (ih h)) (List.Perm.swap _ _ _)

theorem mapErase_absent {m : M_SocketInfo} {fd : Int} (h : mapFind m fd = none) :
    mapErase m fd = m := by
  induction m with
  | nil => rfl
  | cons p rest ih =>
    obtain ⟨k, w⟩ := p
    simp only [mapFind] at h
    simp only [mapErase]
    split at h
    · cases h
    · rename_i hk
      rw [if_neg hk, ih h]

theorem mapFind_mapModify (m : M_SocketInfo) (fd : Int) (f : SocketInfo → SocketInfo)
    (fd2 : Int) :
    mapFind (mapModify m fd f) fd2
      = if fd2 = fd then Option.map f (mapFind m fd) else mapFind m fd2 := by
  induction m with
  | nil => simp [mapModify, mapFind]
  | cons p rest ih =>
    obtain ⟨k, w⟩ := p
    simp only [mapModify]
    split
    · rename_i hk
      subst hk
      simp only [mapFind]
      by_cases e : k = fd2
      · subst e
        simp
      · have e2 : ¬ fd2 = k := fun e2 => e e2.symm
        simp [e, e2]
    · rename_i hk
      simp only [mapFind]
      by_cases e : k = fd2
      · subst e
        simp [hk]
      · rw [if_neg e, if_neg e, ih, if_neg hk]

theorem mapModify_keys (m : M_SocketInfo) (fd : Int) (f : SocketInfo → SocketInfo) :
    (mapModify m fd f).map Prod.fst = m.map Prod.fst := by
  induction m with
  | nil => rfl
  | cons p rest ih =>
    obtain ⟨k, w⟩ := p
    simp only [mapModify]
    split
    · rfl
    · simp only [List.map_cons, ih]

theorem mapModify_keysAscending {m : M_SocketInfo} (fd : Int) (f : SocketInfo → SocketInfo)
    (hm : keysAscending m) : keysAscending (mapModify m fd f) := by
  unfold keysAscending at hm ⊢
  rw [mapModify_keys]
  exact hm

theorem mapModify_length (m : M_SocketInfo) (fd : Int) (f : SocketInfo → SocketInfo) :
    (mapModify m fd f).length = m.length := by
  have h := congrArg List.length (mapModify_keys m fd f)
  simpa using h

/-! ## addSocket, delSocket, addEvents, delEvents -/

theorem addSocket_of_present {s : PollSet} {fd : Int} {v : SocketInfo}
    (update_func : SocketUpdateFunc) (transport : TransportPtr)
    (hm : keysAscending s.socket_info_) (h : mapFind s.socket_info_ fd = some v) :
    addSocket s fd update_func transport = (false, s) := by
  simp only [addSocket]
  rw [mapInsert_present _ hm h]
  rfl

theorem addSocket_of_absent {s : PollSet} {fd : Int}
    (update_func : SocketUpdateFunc) (transport : TransportPtr)
    (h : mapFind s.socket_info_ fd = none) :
    addSocket s fd update_func transport =
      (true, { s with
        socket_info_ := (mapInsert s.socket_info_ fd
          { transport_ := transport, func_ := update_func, fd_ := fd, events_ := 0 }).1,
        sockets_changed_ := true }) := by
  simp only [addSocket]
  rw [mapInsert_absent_second _ h]
  rfl

theorem delSocket_of_present {s : PollSet} {fd : Int} {v : SocketInfo}
    (hfd : 0 ≤ fd) (h : mapFind s.socket_info_ fd = some v) :
    delSocket s fd =
      (true, { s with socket_info_ := mapErase s.socket_info_ fd, sockets_changed_ := true }) := by
  simp only [delSocket]
  rw [if_neg (not_lt.2 hfd), h]

theorem delSocket_of_negative {s : PollSet} {fd : Int} (hfd : fd < 0) :
    delSocket s fd = (false, s) := by
  simp only [delSocket]
  rw [if_pos hfd]

theorem delSocket_of_absent {s : PollSet} {fd : Int} (h : mapFind s.socket_info_ fd = none) :
    delSocket s fd = (false, s) := by
  simp only [delSocket]
  rw [h]
  split <;> rfl

theorem addEvents_of_present {s : PollSet} {sock : Int} {v : SocketInfo} (events : Int)
    (h : mapFind s.socket_info_ sock = some v) :
    addEvents s sock events =
      (true, PollSet.mk
        (mapModify s.socket_info_ sock (fun i => { i with events_ := bitOr i.events_ events }))
        s.sockets_changed_ s.ufds_ s.signal_pipe_) := by
  simp only [addEvents]
  rw [h]

theorem addEvents_of_absent {s : PollSet} {sock : Int} (events : Int)
    (h : mapFind s.socket_info_ sock = none) : addEvents s sock events = (false, s) := by
  simp only [addEvents]
  rw [h]

theorem delEvents_of_present {s : PollSet} {sock : Int} {v : SocketInfo} (events : Int)
    (h : mapFind s.socket_info_ sock = some v) :
    delEvents s sock events =
      (true, PollSet.mk
        (mapModify s.socket_info_ sock
          (fun i => { i with events_ := bitAnd i.events_ (bitNot events) }))
        s.sockets_changed_ s.ufds_ s.signal_pipe_) := by
  simp only [delEvents]
  rw [h]

theorem delEvents_of_absent {s : PollSet} {sock : Int} (events : Int)
    (h : mapFind s.socket_info_ sock = none) : delEvents s sock events = (false, s) := by
  simp only [delEvents]
  rw [h]
/-! ## Claims about the mutation API -/

/-- C1: `addSocket` on a descriptor that is already registered returns false and
leaves the PollSet (registry, changed flag, poll array) exactly as it was; in
particular the entry of `fd` keeps its callback, transport and interest mask. -/
theorem addSocket_duplicate_rejected (s : PollSet) (fd : Int) (cb2 : SocketUpdateFunc)
    (transport2 : TransportPtr) (info : SocketInfo)
    (hm : keysAscending s.socket_info_) (h : mapFind s.socket_info_ fd = some info) :
    (addSocket s fd cb2 transport2).1 = false ∧
    (addSocket s fd cb2 transport2).2 = s ∧
    mapFind (addSocket s fd cb2 transport2).2.socket_info_ fd = some info ∧
    (addSocket s fd cb2 transport2).2.socket_info_ = s.socket_info_ := by
  rw [addSocket_of_present cb2 transport2 hm h]
  exact ⟨rfl, rfl, h, rfl⟩

/-- Witness for C1: a second `addSocket` on the pipe's read end of a fresh PollSet. -/
theorem addSocket_duplicate_rejected_witness :
    keysAscending (PollSet.new 3 4).socket_info_ ∧
    mapFind (PollSet.new 3 4).socket_info_ 3
      = some { transport_ := none, func_ := some Callback.onLocalPipeEvents,
               fd_ := 3, events_ := 1 } ∧
    (addSocket (PollSet.new 3 4) 3 (some (Callback.user 7)) (some 1)).1 = false ∧
    (addSocket (PollSet.new 3 4) 3 (some (Callback.user 7)) (some 1)).2 = PollSet.new 3 4 :=
  ⟨by decide, by decide,
    (addSocket_duplicate_rejected (PollSet.new 3 4) 3 (some (Callback.user 7)) (some 1)
      { transport_ := none, func_ := some Callback.onLocalPipeEvents, fd_ := 3, events_ := 1 }
      (by decide) (by decide)).1,
    (addSocket_duplicate_rejected (PollSet.new 3 4) 3 (some (Callback.user 7)) (some 1)
      { transport_ := none, func_ := some Callback.onLocalPipeEvents, fd_ := 3, events_ := 1 }
      (by decide) (by decide)).2.1⟩

/-- C2: `addSocket` on a descriptor that is not registered returns true; the new
registry is the old one plus exactly one entry under `fd` (a permutation of that
entry consed onto the old sequence, still in ascending key order), the entry has
interest 0 and the callback and transport passed in, every other descriptor
looks up as before, and the changed flag is true. -/
theorem addSocket_fresh_inserted (s : PollSet) (fd : Int) (cb : SocketUpdateFunc)
    (transport : TransportPtr)
    (hm : keysAscending s.socket_info_) (h : mapFind s.socket_info_ fd = none) :
    (addSocket s fd cb transport).1 = true ∧
    List.Perm (addSocket s fd cb transport).2.socket_info_
      ((fd, { transport_ := transport, func_ := cb, fd_ := fd, events_ := 0 })
        :: s.socket_info_) ∧
    keysAscending (addSocket s fd cb transport).2.socket_info_ ∧
    mapFind (addSocket s fd cb transport).2.socket_info_ fd
      = some { transport_ := transport, func_ := cb, fd_ := fd, events_ := 0 } ∧
    (∀ fd2, fd2 ≠ fd →
      mapFind (addSocket s fd cb transport).2.socket_info_ fd2 = mapFind s.socket_info_ fd2) ∧
    (addSocket s fd cb transport).2.sockets_changed_ = true := by
  rw [addSocket_of_absent cb transport h]
  refine ⟨rfl, mapInsert_absent_perm _ h, mapInsert_keysAscending _ _ hm, ?_, ?_, rfl⟩
  · show mapFind (mapInsert s.socket_info_ fd _).1 fd = _
    rw [mapFind_mapInsert_absent _ h, if_pos rfl]
  · intro fd2 hne
    show mapFind (mapInsert s.socket_info_ fd _).1 fd2 = _
    rw [mapFind_mapInsert_absent _ h, if_neg hne]

/-- Witness for C2: descriptor 1 is added to a fresh PollSet whose pipe is (3, 4). -/
theorem addSocket_fresh_inserted_witness :
    keysAscending (PollSet.new 3 4).socket_info_ ∧
    mapFind (PollSet.new 3 4).socket_info_ 1 = none ∧
    (addSocket (PollSet.new 3 4) 1 (some (Callback.user 0)) none).1 = true ∧
    mapFind (addSocket (PollSet.new 3 4) 1 (some (Callback.user 0)) none).2.socket_info_ 1
      = some { transport_ := none, func_ := some (Callback.user 0), fd_ := 1, events_ := 0 } :=
  ⟨by decide, by decide,
    (addSocket_fresh_inserted (PollSet.new 3 4) 1 (some (Callback.user 0)) none
      (by decide) (by decide)).1,
    (addSocket_fresh_inserted (PollSet.new 3 4) 1 (some (Callback.user 0)) none
      (by decide) (by decide)).2.2.2.1⟩

/-- C3: `delSocket fd` returns true exactly when `fd >= 0` and `fd` is
registered. When it returns true the entry of `fd` is gone (the old registry is a
permutation of that entry consed onto the new one), every other descriptor looks
up as before, the keys are still ascending and the changed flag is true. When it
returns false the PollSet, changed flag included, is what it was. -/
theorem delSocket_spec (s : PollSet) (fd : Int) (hm : keysAscending s.socket_info_) :
    ((delSocket s fd).1 = true ↔ (0 ≤ fd ∧ (mapFind s.socket_info_ fd).isSome = true)) ∧
    ((delSocket s fd).1 = true →
      mapFind (delSocket s fd).2.socket_info_ fd = none ∧
      (∀ info, mapFind s.socket_info_ fd = some info →
        List.Perm s.socket_info_ ((fd, info) :: (delSocket s fd).2.socket_info_)) ∧
      (∀ fd2, fd2 ≠ fd →
        mapFind (delSocket s fd).2.socket_info_ fd2 = mapFind s.socket_info_ fd2) ∧
      keysAscending (delSocket s fd).2.socket_info_ ∧
      (delSocket s fd).2.sockets_changed_ = true) ∧
    ((delSocket s fd).1 = false → (delSocket s fd).2 = s) := by
  by_cases hfd : fd < 0
  · rw [delSocket_of_negative hfd]
    refine ⟨⟨fun h => (by cases h), fun h => absurd h.1 (not_le.2 hfd)⟩,
      fun h => (by cases h), fun _ => rfl⟩
  · cases hf : mapFind s.socket_info_ fd with
    | none =>
      rw [delSocket_of_absent hf]
      refine ⟨⟨fun h => (by cases h), fun h => (by cases h.2)⟩, fun h => (by cases h),
        fun _ => rfl⟩
    | some v =>
      rw [delSocket_of_present (not_lt.1 hfd) hf]
      refine ⟨⟨fun _ => ⟨not_lt.1 hfd, rfl⟩, fun _ => rfl⟩, fun _ => ?_, fun h => (by cases h)⟩
      refine ⟨mapFind_mapErase_self fd hm, ?_, fun fd2 hne => mapFind_mapErase_ne _ hne,
        mapErase_keysAscending fd hm, rfl⟩
      intro info hinfo
      cases hinfo
      exact mapErase_perm hf

/-- Witness for C3: deleting descriptor 3, registered in a fresh PollSet. -/
theorem delSocket_spec_witness :
    keysAscending (PollSet.new 3 4).socket_info_ ∧
    (delSocket (PollSet.new 3 4) 3).1 = true ∧
    mapFind (delSocket (PollSet.new 3 4) 3).2.socket_info_ 3 = none ∧
    (delSocket (PollSet.new 3 4) (-1)).2 = PollSet.new 3 4 :=
  ⟨by decide, by decide,
    ((delSocket_spec (PollSet.new 3 4) 3 (by decide)).2.1 (by decide)).1,
    (delSocket_spec (PollSet.new 3 4) (-1) (by decide)).2.2 (by decide)⟩

/-- C4: on a registered descriptor `addEvents` returns true and replaces the
interest by `old | mask`, leaving callback, transport and `fd_` of the entry, the
key sequence and every other entry as they were; on a descriptor that is not
registered it returns false and changes nothing. -/
theorem addEvents_spec (s : PollSet) (sock mask : Int) :
    (∀ info, mapFind s.socket_info_ sock = some info →
      (addEvents s sock mask).1 = true ∧
      mapFind (addEvents s sock mask).2.socket_info_ sock
        = some { transport_ := info.transport_, func_ := info.func_, fd_ := info.fd_,
                 events_ := bitOr info.events_ mask } ∧
      (∀ fd2, fd2 ≠ sock →
        mapFind (addEvents s sock mask).2.socket_info_ fd2 = mapFind s.socket_info_ fd2) ∧
      (addEvents s sock mask).2.socket_info_.map Prod.fst = s.socket_info_.map Prod.fst) ∧
    (mapFind s.socket_info_ sock = none → addEvents s sock mask = (false, s)) := by
  refine ⟨fun info h => ?_, fun h => addEvents_of_absent mask h⟩
  rw [addEvents_of_present mask h]
  refine ⟨rfl, ?_, fun fd2 hne => ?_, mapModify_keys _ _ _⟩
  · show mapFind (mapModify s.socket_info_ sock _) sock = _
    rw [mapFind_mapModify, if_pos rfl, h]
    rfl
  · show mapFind (mapModify s.socket_info_ sock _) fd2 = _
    rw [mapFind_mapModify, if_neg hne]

/-- Witness for C4: `addEvents 3 POLLOUT` on a fresh PollSet gives interest 5;
`addEvents 9 POLLOUT` finds nothing. -/
theorem addEvents_spec_witness :
    mapFind (addEvents (PollSet.new 3 4) 3 POLLOUT).2.socket_info_ 3
      = some { transport_ := none, func_ := some Callback.onLocalPipeEvents, fd_ := 3,
               events_ := 5 } ∧
    addEvents (PollSet.new 3 4) 9 POLLOUT = (false, PollSet.new 3 4) :=
  ⟨((addEvents_spec (PollSet.new 3 4) 3 POLLOUT).1
      { transport_ := none, func_ := some Callback.onLocalPipeEvents, fd_ := 3, events_ := 1 }
      (by decide)).2.1,
    (addEvents_spec (PollSet.new 3 4) 9 POLLOUT).2 (by decide)⟩

/-- C5: on a registered descriptor `delEvents` returns true and replaces the
interest by `old & ~mask`: bit by bit the new interest has a bit exactly where
the old one had it and `mask` has not, so no bit of `mask` is left and the bits
outside `mask` are as before. Callback, transport, `fd_`, the key sequence and
every other entry stay. On a descriptor that is not registered it returns false
and changes nothing. -/
theorem delEvents_spec (s : PollSet) (sock mask : Int) :
    (∀ info, mapFind s.socket_info_ sock = some info →
      (delEvents s sock mask).1 = true ∧
      mapFind (delEvents s sock mask).2.socket_info_ sock
        = some { transport_ := info.transport_, func_ := info.func_, fd_ := info.fd_,
                 events_ := bitAnd info.events_ (bitNot mask) } ∧
      (∀ k, (bitAnd info.events_ (bitNot mask)).testBit k
        = (info.events_.testBit k && !mask.testBit k)) ∧
      bitAnd (bitAnd info.events_ (bitNot mask)) mask = 0 ∧
      (∀ fd2, fd2 ≠ sock →
        mapFind (delEvents s sock mask).2.socket_info_ fd2 = mapFind s.socket_info_ fd2) ∧
      (delEvents s sock mask).2.socket_info_.map Prod.fst = s.socket_info_.map Prod.fst) ∧
    (mapFind s.socket_info_ sock = none → delEvents s sock mask = (false, s)) := by
  refine ⟨fun info h => ?_, fun h => delEvents_of_absent mask h⟩
  rw [delEvents_of_present mask h]
  refine ⟨rfl, ?_, fun k => ?_, bitAnd_bitNot_disjoint _ _, fun fd2 hne => ?_,
    mapModify_keys _ _ _⟩
  · show mapFind (mapModify s.socket_info_ sock _) sock = _
    rw [mapFind_mapModify, if_pos rfl, h]
    rfl
  · rw [testBit_bitAnd, testBit_bitNot]
  · show mapFind (mapModify s.socket_info_ sock _) fd2 = _
    rw [mapFind_mapModify, if_neg hne]

/-- Witness for C5: `delEvents 3 POLLIN` on a fresh PollSet leaves interest 0;
`delEvents 9 POLLIN` finds nothing. -/
theorem delEvents_spec_witness :
    mapFind (delEvents (PollSet.new 3 4) 3 POLLIN).2.socket_info_ 3
      = some { transport_ := none, func_ := some Callback.onLocalPipeEvents, fd_ := 3,
               events_ := 0 } ∧
    delEvents (PollSet.new 3 4) 9 POLLIN = (false, PollSet.new 3 4) :=
  ⟨((delEvents_spec (PollSet.new 3 4) 3 POLLIN).1
      { transport_ := none, func_ := some Callback.onLocalPipeEvents, fd_ := 3, events_ := 1 }
      (by decide)).2.1,
    (delEvents_spec (PollSet.new 3 4) 9 POLLIN).2 (by decide)⟩
/-! ## Snapshot rebuild and dispatch -/

theorem resize_length (v : List pollfd) (n : Nat) : (resize v n).length = n := by
  simp only [resize, List.length_append, List.length_take, List.length_replicate]
  omega

theorem take_succ_set (v : List pollfd) (i : Nat) (x : pollfd) (hi : i < v.length) :
    (v.set i x).take (i + 1) = v.take i ++ [x] := by
  induction v generalizing i with
  | nil => simp at hi
  | cons a rest ih =>
    cases i with
    | zero => simp
    | succ j =>
      simp only [List.length_cons, Nat.add_lt_add_iff_right] at hi
      simp only [List.set_cons_succ, List.take_succ_cons, List.cons_append, ih j hi]

theorem fillSlots_eq (m : M_SocketInfo) (i : Nat) (ufds : List pollfd)
    (hlen : ufds.length = i + m.length) :
    fillSlots m i ufds = ufds.take i ++
      m.map (fun p => { fd := p.2.fd_, events := toShort p.2.events_, revents := 0 }) := by
  induction m generalizing i ufds with
  | nil =>
    simp only [fillSlots, List.map_nil, List.append_nil]
    rw [List.take_of_length_le]
    simp at hlen
    omega
  | cons p rest ih =>
    obtain ⟨k, info⟩ := p
    simp only [List.length_cons] at hlen
    simp only [fillSlots]
    rw [ih (i + 1) _ (by rw [List.length_set]; omega), take_succ_set _ _ _ (by omega)]
    simp

theorem createNativePollset_changed {s : PollSet} (h : s.sockets_changed_ = true) :
    createNativePollset s = PollSet.mk s.socket_info_ s.sockets_changed_
      (s.socket_info_.map
        (fun p => { fd := p.2.fd_, events := toShort p.2.events_, revents := 0 }))
      s.signal_pipe_ := by
  simp only [createNativePollset, h]
  rw [fillSlots_eq _ _ _ (by rw [resize_length]; omega)]
  simp

theorem createNativePollset_unchanged {s : PollSet} (h : s.sockets_changed_ = false) :
    createNativePollset s = s := by
  simp [createNativePollset, h]

theorem dispatchLoop_succ (beh : Behaviour) (s : PollSet) (n : Nat) :
    dispatchLoop beh s (n + 1) =
      ((dispatchSlot beh (dispatchLoop beh s n).1 n).1,
        (dispatchLoop beh s n).2 ++ (dispatchSlot beh (dispatchLoop beh s n).1 n).2) := rfl

/-- The invocation a dispatched slot makes, from the entry found at lookup. -/
theorem dispatchSlot_invocations {beh : Behaviour} {s : PollSet} {i : Nat} {pfd : pollfd}
    {info : SocketInfo} (hslot : s.ufds_[i]? = some pfd) (hrev : pfd.revents ≠ 0)
    (hreg : mapFind s.socket_info_ pfd.fd = some info) :
    (dispatchSlot beh s i).2 =
      match info.func_ with
      | some func =>
        if bitAnd info.events_ pfd.revents ≠ 0 then
          [{ slot := i, fd := pfd.fd, func := func, arg := bitAnd pfd.revents info.events_ }]
        else []
      | none => [] := by
  simp only [dispatchSlot, hslot, hreg, if_neg hrev]
  cases info.func_ with
  | none => rfl
  | some func =>
    by_cases hz : bitAnd info.events_ pfd.revents = 0
    · simp [hz]
    · simp [hz]

theorem dispatchSlot_skip_zero {beh : Behaviour} {s : PollSet} {i : Nat} {pfd : pollfd}
    (hslot : s.ufds_[i]? = some pfd) (hrev : pfd.revents = 0) :
    dispatchSlot beh s i = (s, []) := by
  simp only [dispatchSlot, hslot, if_pos hrev]

theorem dispatchSlot_skip_absent {beh : Behaviour} {s : PollSet} {i : Nat} {pfd : pollfd}
    (hslot : s.ufds_[i]? = some pfd) (hreg : mapFind s.socket_info_ pfd.fd = none) :
    dispatchSlot beh s i = (s, []) := by
  simp only [dispatchSlot, hslot, hreg]
  split <;> rfl

theorem dispatchSlot_skip_range {beh : Behaviour} {s : PollSet} {i : Nat}
    (hslot : s.ufds_[i]? = none) : dispatchSlot beh s i = (s, []) := by
  simp only [dispatchSlot, hslot]

theorem delEvents_ufds (s : PollSet) (sock mask : Int) :
    (delEvents s sock mask).2.ufds_ = s.ufds_ := by
  simp only [delEvents]
  split <;> rfl

theorem addEvents_ufds (s : PollSet) (sock mask : Int) :
    (addEvents s sock mask).2.ufds_ = s.ufds_ := by
  simp only [addEvents]
  split <;> rfl

theorem bitAnd_narrowed (r e mask : Int) :
    bitAnd (bitAnd r (bitAnd e (bitNot mask))) mask = 0 := by
  apply int_eq_of_testBit_eq
  intro k
  rw [testBit_bitAnd, testBit_bitAnd, testBit_bitAnd, testBit_bitNot, testBit_zero_int]
  cases r.testBit k <;> cases e.testBit k <;> cases mask.testBit k <;> rfl
/-! ## Claims about dispatch and rebuild -/

/-- C6: when the loop of `update` reaches slot `i`, the slot's `revents` is
non-zero and its descriptor is registered at that moment, the loop makes exactly
one invocation for the slot if the entry's callback is non-empty and the entry's
interest at lookup has a bit in common with `revents`, with argument
`revents & interest`, and none otherwise; the `events` field of the slot plays no
part. In particular, once `delEvents fd POLLIN` has run after the rebuild, no
invocation for a slot of `fd` carries `POLLIN`, and a slot of `fd` whose
`revents` is `POLLIN` alone makes no invocation. -/
theorem dispatch_uses_lookup_interest (beh : Behaviour) (s : PollSet) (i : Nat) (pfd : pollfd)
    (info : SocketInfo)
    (hslot : (dispatchLoop beh s i).1.ufds_[i]? = some pfd)
    (hrev : pfd.revents ≠ 0)
    (hreg : mapFind (dispatchLoop beh s i).1.socket_info_ pfd.fd = some info) :
    (dispatchLoop beh s (i + 1)).2
        = (dispatchLoop beh s i).2 ++ (dispatchSlot beh (dispatchLoop beh s i).1 i).2 ∧
    (∀ func, info.func_ = some func → bitAnd info.events_ pfd.revents ≠ 0 →
      (dispatchSlot beh (dispatchLoop beh s i).1 i).2
        = [{ slot := i, fd := pfd.fd, func := func, arg := bitAnd pfd.revents info.events_ }]) ∧
    ((info.func_ = none ∨ bitAnd info.events_ pfd.revents = 0) →
      (dispatchSlot beh (dispatchLoop beh s i).1 i).2 = []) ∧
    (∀ inv ∈ (dispatchSlot beh (delEvents (dispatchLoop beh s i).1 pfd.fd POLLIN).2 i).2,
      bitAnd inv.arg POLLIN = 0) ∧
    (pfd.revents = POLLIN →
      (dispatchSlot beh (delEvents (dispatchLoop beh s i).1 pfd.fd POLLIN).2 i).2 = []) := by
  have hnarrow : mapFind (delEvents (dispatchLoop beh s i).1 pfd.fd POLLIN).2.socket_info_ pfd.fd
      = some { transport_ := info.transport_, func_ := info.func_, fd_ := info.fd_,
               events_ := bitAnd info.events_ (bitNot POLLIN) } := by
    rw [delEvents_of_present POLLIN hreg]
    show mapFind (mapModify _ pfd.fd _) pfd.fd = _
    rw [mapFind_mapModify, if_pos rfl, hreg]
    rfl
  have hslot2 : (delEvents (dispatchLoop beh s i).1 pfd.fd POLLIN).2.ufds_[i]? = some pfd := by
    rw [delEvents_ufds]
    exact hslot
  refine ⟨by rw [dispatchLoop_succ], ?_, ?_, ?_, ?_⟩
  · intro func hf hne
    rw [dispatchSlot_invocations hslot hrev hreg, hf]
    simp [hne]
  · intro h
    rw [dispatchSlot_invocations hslot hrev hreg]
    rcases h with h | h
    · rw [h]
    · cases info.func_ <;> simp [h]
  · intro inv hinv
    rw [dispatchSlot_invocations hslot2 hrev hnarrow] at hinv
    cases hf : info.func_ with
    | none => simp [hf] at hinv
    | some func =>
      simp only [hf] at hinv
      split at hinv
      · rw [List.mem_singleton] at hinv
        rw [hinv]
        exact bitAnd_narrowed _ _ _
      · cases hinv
  · intro hr
    rw [dispatchSlot_invocations hslot2 hrev hnarrow]
    have hz : bitAnd (bitAnd info.events_ (bitNot POLLIN)) pfd.revents = 0 := by
      rw [hr]
      exact bitAnd_bitNot_disjoint _ _
    cases info.func_ <;> simp [hz]

/-- Witness for C6: descriptor 5 with interest `POLLIN | POLLOUT` is reported
`POLLIN | POLLHUP` in slot 1 and handed `POLLIN`. -/
theorem dispatch_uses_lookup_interest_witness :
    (dispatchSlot (fun _ _ _ => [])
      (dispatchLoop (fun _ _ _ => [])
        { socket_info_ :=
            [(3, { transport_ := none, func_ := some Callback.onLocalPipeEvents,
                   fd_ := 3, events_ := 1 }),
             (5, { transport_ := none, func_ := some (Callback.user 0), fd_ := 5, events_ := 5 })],
          sockets_changed_ := true,
          ufds_ := [{ fd := 3, events := 1, revents := 0 }, { fd := 5, events := 5, revents := 17 }],
          signal_pipe_ := (3, 4) } 1).1 1).2
      = [{ slot := 1, fd := 5, func := Callback.user 0, arg := 1 }] :=
  (dispatch_uses_lookup_interest (fun _ _ _ => [])
    { socket_info_ :=
        [(3, { transport_ := none, func_ := some Callback.onLocalPipeEvents,
               fd_ := 3, events_ := 1 }),
         (5, { transport_ := none, func_ := some (Callback.user 0), fd_ := 5, events_ := 5 })],
      sockets_changed_ := true,
      ufds_ := [{ fd := 3, events := 1, revents := 0 }, { fd := 5, events := 5, revents := 17 }],
      signal_pipe_ := (3, 4) }
    1 { fd := 5, events := 5, revents := 17 }
    { transport_ := none, func_ := some (Callback.user 0), fd_ := 5, events_ := 5 }
    (by decide) (by decide) (by decide)).2.1 (Callback.user 0) (by decide) (by decide)

/-- C7, as stated, fails: descriptor 5 has interest `POLLIN` and a callback, and
`poll` reports `POLLHUP` for it; `update` makes no invocation at all, although
`revents & (interest | ERR | HUP | NVAL)` is `POLLHUP`. -/
theorem dispatch_drops_hangup_counterexample :
    mapFind (addEvents (addSocket (PollSet.new 3 4) 5 (some (Callback.user 0)) none).2
        5 POLLIN).2.socket_info_ 5
      = some { transport_ := none, func_ := some (Callback.user 0), fd_ := 5, events_ := POLLIN } ∧
    bitAnd POLLHUP (bitOr POLLIN (bitOr POLLERR (bitOr POLLHUP POLLNVAL))) = POLLHUP ∧
    (update (fun _ _ _ => [])
      (addEvents (addSocket (PollSet.new 3 4) 5 (some (Callback.user 0)) none).2 5 POLLIN).2
      { ret := 1, revents := [0, POLLHUP] }).2 = [] := by
  decide

/-- C7, amended: the mask handed over by a dispatched slot is `revents & interest`
with the interest found at lookup; every bit of it is a bit of the interest, so
`POLLERR`, `POLLHUP` and `POLLNVAL` arrive only when the interest contains them;
and when `revents` has no bit in common with the interest no invocation is made. -/
theorem dispatch_mask_within_interest (beh : Behaviour) (s : PollSet) (i : Nat) (pfd : pollfd)
    (info : SocketInfo)
    (hslot : s.ufds_[i]? = some pfd)
    (hreg : mapFind s.socket_info_ pfd.fd = some info) :
    (∀ inv ∈ (dispatchSlot beh s i).2,
      inv.arg = bitAnd pfd.revents info.events_ ∧
      (∀ k, inv.arg.testBit k = true →
        info.events_.testBit k = true ∧ pfd.revents.testBit k = true)) ∧
    (bitAnd info.events_ pfd.revents = 0 → (dispatchSlot beh s i).2 = []) := by
  by_cases hrev : pfd.revents = 0
  · rw [dispatchSlot_skip_zero hslot hrev]
    exact ⟨fun inv hinv => (by cases hinv), fun _ => rfl⟩
  · rw [dispatchSlot_invocations hslot hrev hreg]
    constructor
    · intro inv hinv
      cases hf : info.func_ with
      | none => simp [hf] at hinv
      | some func =>
        simp only [hf] at hinv
        split at hinv
        · rw [List.mem_singleton] at hinv
          subst hinv
          refine ⟨rfl, fun k hk => ?_⟩
          simp only [testBit_bitAnd, Bool.and_eq_true] at hk
          exact ⟨hk.2, hk.1⟩
        · cases hinv
    · intro hz
      cases info.func_ <;> simp [hz]

/-- Witness for C7 amended: interest `POLLIN`, `revents = POLLIN | POLLHUP`: the
callback is handed `POLLIN`; with `revents = POLLHUP` nothing is invoked. -/
theorem dispatch_mask_within_interest_witness :
    (∀ inv ∈ (dispatchSlot (fun _ _ _ => [])
        { socket_info_ :=
            [(5, { transport_ := none, func_ := some (Callback.user 0), fd_ := 5, events_ := 1 })],
          sockets_changed_ := true,
          ufds_ := [{ fd := 5, events := 1, revents := 17 }],
          signal_pipe_ := (3, 4) } 0).2, inv.arg = 1) ∧
    (dispatchSlot (fun _ _ _ => [])
        { socket_info_ :=
            [(5, { transport_ := none, func_ := some (Callback.user 0), fd_ := 5, events_ := 1 })],
          sockets_changed_ := true,
          ufds_ := [{ fd := 5, events := 1, revents := 16 }],
          signal_pipe_ := (3, 4) } 0).2 = [] :=
  ⟨fun inv hinv =>
    ((dispatch_mask_within_interest (fun _ _ _ => [])
      { socket_info_ :=
          [(5, { transport_ := none, func_ := some (Callback.user 0), fd_ := 5, events_ := 1 })],
        sockets_changed_ := true,
        ufds_ := [{ fd := 5, events := 1, revents := 17 }],
        signal_pipe_ := (3, 4) }
      0 { fd := 5, events := 1, revents := 17 }
      { transport_ := none, func_ := some (Callback.user 0), fd_ := 5, events_ := 1 }
      (by decide) (by decide)).1 inv hinv).1,
   (dispatch_mask_within_interest (fun _ _ _ => [])
      { socket_info_ :=
          [(5, { transport_ := none, func_ := some (Callback.user 0), fd_ := 5, events_ := 1 })],
        sockets_changed_ := true,
        ufds_ := [{ fd := 5, events := 1, revents := 16 }],
        signal_pipe_ := (3, 4) }
      0 { fd := 5, events := 1, revents := 16 }
      { transport_ := none, func_ := some (Callback.user 0), fd_ := 5, events_ := 1 }
      (by decide) (by decide)).2 (by decide)⟩
theorem toShort_of_fits {x : Int} (h1 : -32768 ≤ x) (h2 : x ≤ 32767) : toShort x = x := by
  unfold toShort
  omega

/-- C8, as stated, fails: after `addEvents 3 65536` on a fresh PollSet the entry
of descriptor 3 has interest 65537, the changed flag is true, and the rebuild
stores 1 in the 16 bit `events` field of its slot, so the (fd, events)
pairs of the array differ from the (fd, interest) pairs of the registry. -/
theorem createNativePollset_narrows_counterexample :
    (addEvents (PollSet.new 3 4) 3 65536).2.sockets_changed_ = true ∧
    mapFind (addEvents (PollSet.new 3 4) 3 65536).2.socket_info_ 3
      = some { transport_ := none, func_ := some Callback.onLocalPipeEvents, fd_ := 3,
               events_ := 65537 } ∧
    (createNativePollset (addEvents (PollSet.new 3 4) 3 65536).2).ufds_
      = [{ fd := 3, events := 1, revents := 0 }] ∧
    (createNativePollset (addEvents (PollSet.new 3 4) 3 65536).2).ufds_.map
        (fun p => (p.fd, p.events))
      ≠ (addEvents (PollSet.new 3 4) 3 65536).2.socket_info_.map
        (fun p => (p.1, p.2.events_)) := by
  decide

/-- C8, amended: with the changed flag true the rebuild leaves an array as long
as the registry whose slot `i` is (key of the `i`-th entry in ascending key
order, that entry's interest converted to the 16 bit `events` field, 0); the
(fd, events) pairs are the (fd, interest) pairs whenever every interest fits in
16 bits. With the changed flag false the array is left untouched. -/
theorem createNativePollset_snapshot (s : PollSet)
    (hk : keysAscending s.socket_info_) (hm : fdMatchesKey s.socket_info_) :
    (s.sockets_changed_ = true →
      (createNativePollset s).ufds_.length = s.socket_info_.length ∧
      (∀ i : Nat, (createNativePollset s).ufds_[i]?
        = Option.map
            (fun (p : Int × SocketInfo) =>
              ({ fd := p.1, events := toShort p.2.events_, revents := 0 } : pollfd))
            s.socket_info_[i]?) ∧
      List.Pairwise (fun a b => a < b) ((createNativePollset s).ufds_.map (fun p => p.fd)) ∧
      (createNativePollset s).ufds_.map (fun p => (p.fd, p.events))
        = s.socket_info_.map (fun p => (p.1, toShort p.2.events_)) ∧
      ((∀ p ∈ s.socket_info_, -32768 ≤ p.2.events_ ∧ p.2.events_ ≤ 32767) →
        (createNativePollset s).ufds_.map (fun p => (p.fd, p.events))
          = s.socket_info_.map (fun p => (p.1, p.2.events_)))) ∧
    (s.sockets_changed_ = false → (createNativePollset s).ufds_ = s.ufds_) := by
  have hslot : ∀ p ∈ s.socket_info_,
      ({ fd := p.2.fd_, events := toShort p.2.events_, revents := 0 } : pollfd)
        = { fd := p.1, events := toShort p.2.events_, revents := 0 } := by
    intro p hp
    rw [hm p hp]
  refine ⟨fun hc => ?_, fun hc => by rw [createNativePollset_unchanged hc]⟩
  rw [createNativePollset_changed hc]
  show _ ∧ _ ∧ _ ∧ _ ∧ _
  rw [List.map_congr_left hslot]
  refine ⟨by simp, fun i => by simp, ?_, by simp [Function.comp_def], fun hfit => ?_⟩
  · rw [List.map_map]
    exact hk
  · rw [List.map_map]
    apply List.map_congr_left
    intro p hp
    simp only [Function.comp]
    rw [toShort_of_fits (hfit p hp).1 (hfit p hp).2]

/-- Witness for C8 amended: the first rebuild of a fresh PollSet. -/
theorem createNativePollset_snapshot_witness :
    keysAscending (PollSet.new 3 4).socket_info_ ∧
    fdMatchesKey (PollSet.new 3 4).socket_info_ ∧
    (PollSet.new 3 4).sockets_changed_ = true ∧
    (createNativePollset (PollSet.new 3 4)).ufds_.map (fun p => (p.fd, p.events))
      = (PollSet.new 3 4).socket_info_.map (fun p => (p.1, p.2.events_)) :=
  ⟨by decide, by decide, by decide,
    ((createNativePollset_snapshot (PollSet.new 3 4) (by decide) (by decide)).1
      (by decide)).2.2.2.2 (by decide)⟩

/-- C10, the code at the failing input: the changed flag of a fresh PollSet is
true, and it is still true after `createNativePollset` and after the `update`
around it (here with `poll` returning 0), where the claim has it false. No
statement of `createNativePollset` writes the flag, so the guard
`if (!sockets_changed_) return;` never fires again. -/
theorem createNativePollset_flag_not_cleared :
    (PollSet.new 3 4).sockets_changed_ = true ∧
    (createNativePollset (PollSet.new 3 4)).sockets_changed_ = true ∧
    (update (fun _ _ _ => []) (PollSet.new 3 4) { ret := 0, revents := [0] }).1.sockets_changed_
      = true ∧
    (createNativePollset
      (update (fun _ _ _ => []) (PollSet.new 3 4)
        { ret := 0, revents := [0] }).1).sockets_changed_ = true := by
  decide

/-! ## Frame lemmas: what the calls leave alone -/

theorem addSocket_ufds (s : PollSet) (fd : Int) (f : SocketUpdateFunc) (t : TransportPtr) :
    (addSocket s fd f t).2.ufds_ = s.ufds_ := by
  simp only [addSocket]
  split <;> rfl

theorem delSocket_ufds (s : PollSet) (fd : Int) : (delSocket s fd).2.ufds_ = s.ufds_ := by
  simp only [delSocket]
  split
  · rfl
  · split <;> rfl

theorem applyOp_ufds (s : PollSet) (o : Op) : (applyOp s o).ufds_ = s.ufds_ := by
  cases o with
  | addSocket fd f t => exact addSocket_ufds s fd f t
  | delSocket fd => exact delSocket_ufds s fd
  | addEvents sock ev => exact addEvents_ufds s sock ev
  | delEvents sock ev => exact delEvents_ufds s sock ev

theorem applyOps_ufds (s : PollSet) (ops : List Op) : (applyOps s ops).ufds_ = s.ufds_ := by
  induction ops generalizing s with
  | nil => rfl
  | cons o rest ih =>
    show (applyOps (applyOp s o) rest).ufds_ = s.ufds_
    rw [ih, applyOp_ufds]

theorem addSocket_flag {s : PollSet} (fd : Int) (f : SocketUpdateFunc) (t : TransportPtr)
    (h : s.sockets_changed_ = true) : (addSocket s fd f t).2.sockets_changed_ = true := by
  simp only [addSocket]
  split
  · exact h
  · rfl

theorem delSocket_flag {s : PollSet} (fd : Int) (h : s.sockets_changed_ = true) :
    (delSocket s fd).2.sockets_changed_ = true := by
  simp only [delSocket]
  split
  · exact h
  · split
    · rfl
    · exact h

theorem addEvents_flag (s : PollSet) (sock mask : Int) :
    (addEvents s sock mask).2.sockets_changed_ = s.sockets_changed_ := by
  simp only [addEvents]
  split <;> rfl

theorem delEvents_flag (s : PollSet) (sock mask : Int) :
    (delEvents s sock mask).2.sockets_changed_ = s.sockets_changed_ := by
  simp only [delEvents]
  split <;> rfl

theorem applyOp_flag {s : PollSet} (o : Op) (h : s.sockets_changed_ = true) :
    (applyOp s o).sockets_changed_ = true := by
  cases o with
  | addSocket fd f t => exact addSocket_flag fd f t h
  | delSocket fd => exact delSocket_flag fd h
  | addEvents sock ev => exact (addEvents_flag s sock ev).trans h
  | delEvents sock ev => exact (delEvents_flag s sock ev).trans h

theorem applyOps_flag {s : PollSet} (ops : List Op) (h : s.sockets_changed_ = true) :
    (applyOps s ops).sockets_changed_ = true := by
  induction ops generalizing s with
  | nil => exact h
  | cons o rest ih => exact ih (applyOp_flag o h)

theorem createNativePollset_flag (s : PollSet) :
    (createNativePollset s).sockets_changed_ = s.sockets_changed_ := by
  simp only [createNativePollset]
  split <;> rfl

theorem createNativePollset_registry (s : PollSet) :
    (createNativePollset s).socket_info_ = s.socket_info_ := by
  simp only [createNativePollset]
  split <;> rfl

theorem dispatchSlot_flag {beh : Behaviour} {s : PollSet} (i : Nat)
    (h : s.sockets_changed_ = true) : (dispatchSlot beh s i).1.sockets_changed_ = true := by
  simp only [dispatchSlot]
  split
  · exact h
  · split
    · exact h
    · split
      · exact h
      · split
        · split
          · exact applyOps_flag _ h
          · exact h
        · exact h

theorem dispatchLoop_flag {beh : Behaviour} {s : PollSet} (n : Nat)
    (h : s.sockets_changed_ = true) : (dispatchLoop beh s n).1.sockets_changed_ = true := by
  induction n with
  | zero => exact h
  | succ n ih =>
    rw [dispatchLoop_succ]
    exact dispatchSlot_flag n ih

theorem update_flag {beh : Behaviour} {s : PollSet} (os : PollOutcome)
    (h : s.sockets_changed_ = true) : (update beh s os).1.sockets_changed_ = true := by
  have h1 : (createNativePollset s).sockets_changed_ = true :=
    (createNativePollset_flag s).trans h
  simp only [update]
  split
  · exact h1
  · split
    · exact dispatchLoop_flag _ h1
    · exact h1

theorem new_flag (r w : Int) : (PollSet.new r w).sockets_changed_ = true := by
  simp only [PollSet.new]
  rw [addEvents_flag]
  simp [addSocket, mapInsert]

theorem runCall_flag {s : PollSet} (c : Call) (h : s.sockets_changed_ = true) :
    (runCall s c).sockets_changed_ = true := by
  cases c with
  | op o => exact applyOp_flag o h
  | update beh os => exact update_flag os h

theorem runCalls_flag {s : PollSet} (cs : List Call) (h : s.sockets_changed_ = true) :
    (runCalls s cs).sockets_changed_ = true := by
  induction cs generalizing s with
  | nil => exact h
  | cons c rest ih => exact ih (runCall_flag c h)

/-! ## Claims about the changed flag, the poll array and failed polls -/

/-- C16 (invariant I4): in every state reached from a constructed PollSet by
calls of the mutation API and earlier `update` calls, the array that `update`
hands to `poll`, the one `createNativePollset` leaves, has `revents = 0` in
every slot. -/
theorem revents_zero_at_poll (r w : Int) (cs : List Call) :
    ∀ p ∈ (createNativePollset (runCalls (PollSet.new r w) cs)).ufds_, p.revents = 0 := by
  intro p hp
  rw [createNativePollset_changed (runCalls_flag cs (new_flag r w))] at hp
  obtain ⟨q, _, rfl⟩ := List.mem_map.1 hp
  rfl

/-- Witness for C16: an `update` whose first callback deletes descriptor 6
leaves `revents = 1` in the skipped slot of 6; the array handed to the next
`poll` has `revents = 0` throughout. -/
theorem revents_zero_at_poll_witness :
    (runCalls (PollSet.new 3 4)
      [Call.op (Op.addSocket 5 (some (Callback.user 0)) none), Call.op (Op.addEvents 5 POLLIN),
        Call.op (Op.addSocket 6 (some (Callback.user 1)) none), Call.op (Op.addEvents 6 POLLIN),
        Call.update (fun id _ _ => if id = 0 then [Op.delSocket 6] else [])
          { ret := 2, revents := [0, 1, 1] }]).ufds_
      = [{ fd := 3, events := 1, revents := 0 }, { fd := 5, events := 1, revents := 0 },
         { fd := 6, events := 1, revents := 1 }] ∧
    (createNativePollset (runCalls (PollSet.new 3 4)
      [Call.op (Op.addSocket 5 (some (Callback.user 0)) none), Call.op (Op.addEvents 5 POLLIN),
        Call.op (Op.addSocket 6 (some (Callback.user 1)) none), Call.op (Op.addEvents 6 POLLIN),
        Call.update (fun id _ _ => if id = 0 then [Op.delSocket 6] else [])
          { ret := 2, revents := [0, 1, 1] }])).ufds_
      = [{ fd := 3, events := 1, revents := 0 }, { fd := 5, events := 1, revents := 0 }] ∧
    (∀ p ∈ (createNativePollset (runCalls (PollSet.new 3 4)
      [Call.op (Op.addSocket 5 (some (Callback.user 0)) none), Call.op (Op.addEvents 5 POLLIN),
        Call.op (Op.addSocket 6 (some (Callback.user 1)) none), Call.op (Op.addEvents 6 POLLIN),
        Call.update (fun id _ _ => if id = 0 then [Op.delSocket 6] else [])
          { ret := 2, revents := [0, 1, 1] }])).ufds_, p.revents = 0) :=
  ⟨by decide, by decide,
    revents_zero_at_poll 3 4
      [Call.op (Op.addSocket 5 (some (Callback.user 0)) none), Call.op (Op.addEvents 5 POLLIN),
        Call.op (Op.addSocket 6 (some (Callback.user 1)) none), Call.op (Op.addEvents 6 POLLIN),
        Call.update (fun id _ _ => if id = 0 then [Op.delSocket 6] else [])
          { ret := 2, revents := [0, 1, 1] }]⟩

/-- C18: when `poll` returns a negative value or 0, `update` makes no callback
invocation and leaves the registry (and the changed flag) as they were,
whatever `revents` the array holds. -/
theorem update_without_ready (beh : Behaviour) (s : PollSet) (os : PollOutcome)
    (hret : os.ret ≤ 0) :
    (update beh s os).2 = [] ∧
    (update beh s os).1.socket_info_ = s.socket_info_ ∧
    (update beh s os).1.sockets_changed_ = s.sockets_changed_ := by
  simp only [update]
  split
  · exact ⟨rfl, createNativePollset_registry s, createNativePollset_flag s⟩
  · rw [if_neg (not_lt.2 hret)]
    exact ⟨rfl, createNativePollset_registry s, createNativePollset_flag s⟩

/-- Witness for C18: `poll` returns -1 with `POLLIN` left in slot 0 of a fresh
PollSet. -/
theorem update_without_ready_witness :
    (update (fun _ _ _ => [Op.delSocket 3]) (PollSet.new 3 4)
      { ret := -1, revents := [POLLIN] }).2 = [] ∧
    (update (fun _ _ _ => [Op.delSocket 3]) (PollSet.new 3 4)
      { ret := -1, revents := [POLLIN] }).1.socket_info_ = (PollSet.new 3 4).socket_info_ :=
  ⟨(update_without_ready (fun _ _ _ => [Op.delSocket 3]) (PollSet.new 3 4)
      { ret := -1, revents := [POLLIN] } (by decide)).1,
    (update_without_ready (fun _ _ _ => [Op.delSocket 3]) (PollSet.new 3 4)
      { ret := -1, revents := [POLLIN] } (by decide)).2.1⟩

/-- C19: `addSocket`, `delSocket`, `addEvents` and `delEvents` leave the native
poll array as it was, whatever their arguments and whether they succeed or not.
The members that write the array, `createNativePollset` and the loop of
`update`, are reached only through `update`. -/
theorem mutators_keep_poll_array (s : PollSet) (fd mask : Int) (f : SocketUpdateFunc)
    (t : TransportPtr) :
    (addSocket s fd f t).2.ufds_ = s.ufds_ ∧
    (delSocket s fd).2.ufds_ = s.ufds_ ∧
    (addEvents s fd mask).2.ufds_ = s.ufds_ ∧
    (delEvents s fd mask).2.ufds_ = s.ufds_ ∧
    (∀ ops : List Op, (applyOps s ops).ufds_ = s.ufds_) :=
  ⟨addSocket_ufds s fd f t, delSocket_ufds s fd, addEvents_ufds s fd mask,
    delEvents_ufds s fd mask, applyOps_ufds s⟩

/-! ## Invariants over sequences of mutation calls -/

theorem new_registry (r w : Int) :
    (PollSet.new r w).socket_info_
      = [(r, { transport_ := none, func_ := some Callback.onLocalPipeEvents, fd_ := r,
               events_ := 1 })] := by
  simp [PollSet.new, addSocket, mapInsert, addEvents, mapFind, mapModify, POLLIN, bitOr]

theorem new_keysAscending (r w : Int) : keysAscending (PollSet.new r w).socket_info_ := by
  rw [new_registry]
  simp [keysAscending]

theorem addSocket_keysAscending {s : PollSet} (fd : Int) (f : SocketUpdateFunc)
    (t : TransportPtr) (h : keysAscending s.socket_info_) :
    keysAscending (addSocket s fd f t).2.socket_info_ := by
  simp only [addSocket]
  split
  · exact h
  · exact mapInsert_keysAscending _ _ h

theorem delSocket_keysAscending {s : PollSet} (fd : Int) (h : keysAscending s.socket_info_) :
    keysAscending (delSocket s fd).2.socket_info_ := by
  simp only [delSocket]
  split
  · exact h
  · split
    · exact mapErase_keysAscending _ h
    · exact h

theorem addEvents_keysAscending {s : PollSet} (sock mask : Int)
    (h : keysAscending s.socket_info_) :
    keysAscending (addEvents s sock mask).2.socket_info_ := by
  simp only [addEvents]
  split
  · exact h
  · exact mapModify_keysAscending _ _ h

theorem delEvents_keysAscending {s : PollSet} (sock mask : Int)
    (h : keysAscending s.socket_info_) :
    keysAscending (delEvents s sock mask).2.socket_info_ := by
  simp only [delEvents]
  split
  · exact mapModify_keysAscending _ _ h
  · exact h

theorem applyOp_keysAscending {s : PollSet} (o : Op) (h : keysAscending s.socket_info_) :
    keysAscending (applyOp s o).socket_info_ := by
  cases o with
  | addSocket fd f t => exact addSocket_keysAscending fd f t h
  | delSocket fd => exact delSocket_keysAscending fd h
  | addEvents sock ev => exact addEvents_keysAscending sock ev h
  | delEvents sock ev => exact delEvents_keysAscending sock ev h

theorem applyOps_keysAscending {s : PollSet} (ops : List Op) (h : keysAscending s.socket_info_) :
    keysAscending (applyOps s ops).socket_info_ := by
  induction ops generalizing s with
  | nil => exact h
  | cons o rest ih => exact ih (applyOp_keysAscending o h)

theorem mapErase_mem {m : M_SocketInfo} {fd : Int} {q : Int × SocketInfo}
    (hq : q ∈ mapErase m fd) : q ∈ m :=
  (mapErase_sublist m fd).subset hq

theorem mapModify_mem {m : M_SocketInfo} {fd : Int} {f : SocketInfo → SocketInfo}
    {q : Int × SocketInfo} (hq : q ∈ mapModify m fd f) :
    q ∈ m ∨ ∃ v, (fd, v) ∈ m ∧ q = (fd, f v) := by
  induction m with
  | nil => cases hq
  | cons p rest ih =>
    obtain ⟨k, w⟩ := p
    simp only [mapModify] at hq
    split at hq
    · rename_i hk
      subst hk
      rcases List.mem_cons.1 hq with h | h
      · exact Or.inr ⟨w, List.mem_cons_self _ _, h⟩
      · exact Or.inl (List.mem_cons_of_mem _ h)
    · rcases List.mem_cons.1 hq with h | h
      · exact Or.inl (h ▸ List.mem_cons_self _ _)
      · rcases ih h with h | ⟨v, hv, e⟩
        · exact Or.inl (List.mem_cons_of_mem _ h)
        · exact Or.inr ⟨v, List.mem_cons_of_mem _ hv, e⟩

/-- Every key of the registry is at least 0. -/
theorem applyOp_keys_nonneg {s : PollSet} (o : Op) (ho : addsNonneg o = true)
    (h : ∀ p ∈ s.socket_info_, 0 ≤ p.1) : ∀ p ∈ (applyOp s o).socket_info_, 0 ≤ p.1 := by
  intro p hp
  cases o with
  | addSocket fd f t =>
    simp only [applyOp, addSocket] at hp
    split at hp
    · exact h p hp
    · rcases mapInsert_mem hp with e | hp
      · rw [e]
        simpa [addsNonneg] using ho
      · exact h p hp
  | delSocket fd =>
    simp only [applyOp, delSocket] at hp
    split at hp
    · exact h p hp
    · split at hp
      · exact h p (mapErase_mem hp)
      · exact h p hp
  | addEvents sock ev =>
    simp only [applyOp, addEvents] at hp
    split at hp
    · exact h p hp
    · rcases mapModify_mem hp with hp | ⟨v, hv, e⟩
      · exact h p hp
      · rw [e]
        exact h (_, v) hv
  | delEvents sock ev =>
    simp only [applyOp, delEvents] at hp
    split at hp
    · rcases mapModify_mem hp with hp | ⟨v, hv, e⟩
      · exact h p hp
      · rw [e]
        exact h (_, v) hv
    · exact h p hp

theorem applyOps_keys_nonneg {s : PollSet} (ops : List Op)
    (hops : ∀ o ∈ ops, addsNonneg o = true)
    (h : ∀ p ∈ s.socket_info_, 0 ≤ p.1) : ∀ p ∈ (applyOps s ops).socket_info_, 0 ≤ p.1 := by
  induction ops generalizing s with
  | nil => exact h
  | cons o rest ih =>
    exact ih (fun o2 ho2 => hops o2 (List.mem_cons_of_mem _ ho2))
      (applyOp_keys_nonneg o (hops o (List.mem_cons_self _ _)) h)

/-- C12, as stated, fails: on a fresh PollSet with pipe (3, 4), `addSocket (-1)`
returns true and the registry then has the key -1; `delSocket (-1)` does not
take it out again. -/
theorem negative_key_counterexample :
    (addSocket (PollSet.new 3 4) (-1) (some (Callback.user 0)) none).1 = true ∧
    mapFind (addSocket (PollSet.new 3 4) (-1) (some (Callback.user 0)) none).2.socket_info_ (-1)
      = some { transport_ := none, func_ := some (Callback.user 0), fd_ := -1, events_ := 0 } ∧
    ¬ (∀ p ∈ (applyOps (PollSet.new 3 4)
        [Op.addSocket (-1) (some (Callback.user 0)) none, Op.delSocket (-1)]).socket_info_,
      0 ≤ p.1) := by
  decide

/-- C12, amended (invariant I1): in every state reached from a constructed
PollSet whose pipe read end is not negative by calls of `addSocket`,
`delSocket`, `addEvents` and `delEvents` in which every `addSocket` passes a
descriptor that is not negative (all other arguments arbitrary), every key of
the registry is at least 0. -/
theorem keys_nonneg_invariant (r w : Int) (ops : List Op) (hr : 0 ≤ r)
    (hops : ∀ o ∈ ops, addsNonneg o = true) :
    ∀ p ∈ (applyOps (PollSet.new r w) ops).socket_info_, 0 ≤ p.1 := by
  apply applyOps_keys_nonneg ops hops
  intro p hp
  rw [new_registry, List.mem_singleton] at hp
  rw [hp]
  exact hr

/-- Witness for C12 amended: adds of 5 and 0, a del of -7 and event changes on a
fresh PollSet with pipe (3, 4). -/
theorem keys_nonneg_invariant_witness :
    (applyOps (PollSet.new 3 4)
        [Op.addSocket 5 none none, Op.delSocket (-7), Op.addEvents (-2) 1, Op.addSocket 0 none none,
          Op.delEvents 5 (-1)]).socket_info_.map Prod.fst = [0, 3, 5] ∧
    (∀ p ∈ (applyOps (PollSet.new 3 4)
        [Op.addSocket 5 none none, Op.delSocket (-7), Op.addEvents (-2) 1, Op.addSocket 0 none none,
          Op.delEvents 5 (-1)]).socket_info_,
      0 ≤ p.1) :=
  ⟨by decide,
    keys_nonneg_invariant 3 4
      [Op.addSocket 5 none none, Op.delSocket (-7), Op.addEvents (-2) 1, Op.addSocket 0 none none,
        Op.delEvents 5 (-1)]
      (by decide) (by decide)⟩

theorem applyOp_signal_pipe (s : PollSet) (o : Op) :
    (applyOp s o).signal_pipe_ = s.signal_pipe_ := by
  cases o with
  | addSocket fd f t =>
    simp only [applyOp, addSocket]
    split <;> rfl
  | delSocket fd =>
    simp only [applyOp, delSocket]
    split
    · rfl
    · split <;> rfl
  | addEvents sock ev =>
    simp only [applyOp, addEvents]
    split <;> rfl
  | delEvents sock ev =>
    simp only [applyOp, delEvents]
    split <;> rfl

theorem applyOps_signal_pipe (s : PollSet) (ops : List Op) :
    (applyOps s ops).signal_pipe_ = s.signal_pipe_ := by
  induction ops generalizing s with
  | nil => rfl
  | cons o rest ih =>
    show (applyOps (applyOp s o) rest).signal_pipe_ = s.signal_pipe_
    rw [ih, applyOp_signal_pipe]

theorem new_signal_pipe (r w : Int) : (PollSet.new r w).signal_pipe_ = (r, w) := by
  show (applyOp (applyOp _ (Op.addSocket r (some Callback.onLocalPipeEvents) none))
    (Op.addEvents r POLLIN)).signal_pipe_ = _
  rw [applyOp_signal_pipe, applyOp_signal_pipe]

/-- One call that does not strike the pipe keeps the pipe's entry with `POLLIN`
and the drain callback. -/
theorem applyOp_keeps_pipe {s : PollSet} {r : Int} (o : Op)
    (hk : keysAscending s.socket_info_) (ho : strikesPipe r o = false)
    (h : ∃ info, mapFind s.socket_info_ r = some info ∧ info.events_.testBit 0 = true ∧
      info.func_ = some Callback.onLocalPipeEvents) :
    ∃ info, mapFind (applyOp s o).socket_info_ r = some info ∧ info.events_.testBit 0 = true ∧
      info.func_ = some Callback.onLocalPipeEvents := by
  obtain ⟨info, hfind, hbit, hfunc⟩ := h
  cases o with
  | addSocket fd f t =>
    simp only [applyOp]
    cases hf : mapFind s.socket_info_ fd with
    | some v =>
      rw [addSocket_of_present f t hk hf]
      exact ⟨info, hfind, hbit, hfunc⟩
    | none =>
      have hne : r ≠ fd := by
        intro e
        rw [e, hf] at hfind
        cases hfind
      rw [addSocket_of_absent f t hf]
      refine ⟨info, ?_, hbit, hfunc⟩
      show mapFind (mapInsert s.socket_info_ fd _).1 r = _
      rw [mapFind_mapInsert_absent _ hf, if_neg hne, hfind]
  | delSocket fd =>
    have hne : r ≠ fd := by
      intro e
      simp [strikesPipe, e] at ho
    simp only [applyOp]
    by_cases hneg : fd < 0
    · rw [delSocket_of_negative hneg]
      exact ⟨info, hfind, hbit, hfunc⟩
    · cases hf : mapFind s.socket_info_ fd with
      | none =>
        rw [delSocket_of_absent hf]
        exact ⟨info, hfind, hbit, hfunc⟩
      | some v =>
        rw [delSocket_of_present (not_lt.1 hneg) hf]
        refine ⟨info, ?_, hbit, hfunc⟩
        show mapFind (mapErase s.socket_info_ fd) r = _
        rw [mapFind_mapErase_ne _ hne, hfind]
  | addEvents sock ev =>
    simp only [applyOp]
    cases hf : mapFind s.socket_info_ sock with
    | none =>
      rw [addEvents_of_absent ev hf]
      exact ⟨info, hfind, hbit, hfunc⟩
    | some v =>
      rw [addEvents_of_present ev hf]
      show ∃ info, mapFind (mapModify s.socket_info_ sock _) r = some info ∧ _
      rw [mapFind_mapModify]
      by_cases e : r = sock
      · subst e
        rw [if_pos rfl, hfind]
        refine ⟨_, rfl, ?_, hfunc⟩
        show (bitOr info.events_ ev).testBit 0 = true
        rw [testBit_bitOr, hbit]
        rfl
      · rw [if_neg e]
        exact ⟨info, hfind, hbit, hfunc⟩
  | delEvents sock ev =>
    simp only [applyOp]
    cases hf : mapFind s.socket_info_ sock with
    | none =>
      rw [delEvents_of_absent ev hf]
      exact ⟨info, hfind, hbit, hfunc⟩
    | some v =>
      rw [delEvents_of_present ev hf]
      show ∃ info, mapFind (mapModify s.socket_info_ sock _) r = some info ∧ _
      rw [mapFind_mapModify]
      by_cases e : r = sock
      · subst e
        have hev : ev.testBit 0 = false := by
          simpa [strikesPipe] using ho
        rw [if_pos rfl, hfind]
        refine ⟨_, rfl, ?_, hfunc⟩
        show (bitAnd info.events_ (bitNot ev)).testBit 0 = true
        rw [testBit_bitAnd, testBit_bitNot, hbit, hev]
        rfl
      · rw [if_neg e]
        exact ⟨info, hfind, hbit, hfunc⟩

theorem applyOps_keeps_pipe {s : PollSet} {r : Int} (ops : List Op)
    (hk : keysAscending s.socket_info_) (hops : ∀ o ∈ ops, strikesPipe r o = false)
    (h : ∃ info, mapFind s.socket_info_ r = some info ∧ info.events_.testBit 0 = true ∧
      info.func_ = some Callback.onLocalPipeEvents) :
    ∃ info, mapFind (applyOps s ops).socket_info_ r = some info ∧
      info.events_.testBit 0 = true ∧ info.func_ = some Callback.onLocalPipeEvents := by
  induction ops generalizing s with
  | nil => exact h
  | cons o rest ih =>
    exact ih (applyOp_keysAscending o hk)
      (fun o2 ho2 => hops o2 (List.mem_cons_of_mem _ ho2))
      (applyOp_keeps_pipe o hk (hops o (List.mem_cons_self _ _)) h)

/-- C17, as stated, fails: on a fresh PollSet with pipe (3, 4), `delSocket 3`
succeeds and leaves the pipe's read end without an entry, and
`delEvents 3 POLLIN` leaves its entry with interest 0. -/
theorem pipe_entry_counterexample :
    (PollSet.new 3 4).signal_pipe_ = (3, 4) ∧
    (delSocket (PollSet.new 3 4) 3).1 = true ∧
    mapFind (delSocket (PollSet.new 3 4) 3).2.socket_info_ 3 = none ∧
    mapFind (delEvents (PollSet.new 3 4) 3 POLLIN).2.socket_info_ 3
      = some { transport_ := none, func_ := some Callback.onLocalPipeEvents, fd_ := 3,
               events_ := 0 } := by
  decide

/-- C17, amended (invariant I2): right after construction, and in every state
reached from it by calls of `addSocket`, `delSocket`, `addEvents` and
`delEvents` none of which is `delSocket` on the pipe's read end or `delEvents`
on the pipe's read end with `POLLIN` in the mask, the pipe's read end is a key
of the registry, its interest contains `POLLIN` and its callback is
`onLocalPipeEvents`. -/
theorem pipe_entry_invariant (r w : Int) (ops : List Op)
    (hops : ∀ o ∈ ops, strikesPipe r o = false) :
    (applyOps (PollSet.new r w) ops).signal_pipe_.1 = r ∧
    ∃ info, mapFind (applyOps (PollSet.new r w) ops).socket_info_ r = some info ∧
      info.events_.testBit 0 = true ∧ info.func_ = some Callback.onLocalPipeEvents := by
  constructor
  · rw [applyOps_signal_pipe, new_signal_pipe]
  · apply applyOps_keeps_pipe ops (new_keysAscending r w) hops
    rw [new_registry]
    refine ⟨{ transport_ := none, func_ := some Callback.onLocalPipeEvents, fd_ := r,
              events_ := 1 }, ?_, ?_, rfl⟩
    · simp [mapFind]
    · show (1 : Int).testBit 0 = true
      decide

/-- Witness for C17 amended: adds, dels and event changes that spare descriptor
3 of a fresh PollSet with pipe (3, 4), a second `addSocket 3` among them. -/
theorem pipe_entry_invariant_witness :
    ∃ info, mapFind (applyOps (PollSet.new 3 4)
        [Op.addSocket 3 (some (Callback.user 1)) none, Op.addSocket 1 none none, Op.delSocket 1,
          Op.delEvents 3 POLLOUT, Op.addEvents 3 POLLOUT]).socket_info_ 3 = some info ∧
      info.events_.testBit 0 = true ∧ info.func_ = some Callback.onLocalPipeEvents :=
  (pipe_entry_invariant 3 4
    [Op.addSocket 3 (some (Callback.user 1)) none, Op.addSocket 1 none none, Op.delSocket 1,
      Op.delEvents 3 POLLOUT, Op.addEvents 3 POLLOUT]
    (by decide)).2

theorem within7_bitOr {a b : Int} (ha : bitAnd a 7 = a) (hb : bitAnd b 7 = b) :
    bitAnd (bitOr a b) 7 = bitOr a b := by
  apply int_eq_of_testBit_eq
  intro k
  have hak := congrArg (fun x => Int.testBit x k) ha
  have hbk := congrArg (fun x => Int.testBit x k) hb
  simp only [testBit_bitAnd] at hak hbk
  rw [testBit_bitAnd, testBit_bitOr]
  cases h1 : a.testBit k <;> cases h2 : b.testBit k <;>
    cases h3 : (7 : Int).testBit k <;> simp [h1, h2, h3] at hak hbk ⊢

theorem within7_clear {a : Int} (mask : Int) (ha : bitAnd a 7 = a) :
    bitAnd (bitAnd a (bitNot mask)) 7 = bitAnd a (bitNot mask) := by
  apply int_eq_of_testBit_eq
  intro k
  have hak := congrArg (fun x => Int.testBit x k) ha
  simp only [testBit_bitAnd] at hak
  rw [testBit_bitAnd, testBit_bitAnd, testBit_bitNot]
  cases h1 : a.testBit k <;> cases h2 : mask.testBit k <;>
    cases h3 : (7 : Int).testBit k <;> simp [h1, h2, h3] at hak ⊢

/-- One call whose `addEvents` mask lies within 7 keeps every interest within 7. -/
theorem applyOp_within7 {s : PollSet} (o : Op) (ho : addsWithin7 o = true)
    (h : ∀ p ∈ s.socket_info_, bitAnd p.2.events_ 7 = p.2.events_) :
    ∀ p ∈ (applyOp s o).socket_info_, bitAnd p.2.events_ 7 = p.2.events_ := by
  intro p hp
  cases o with
  | addSocket fd f t =>
    simp only [applyOp, addSocket] at hp
    split at hp
    · exact h p hp
    · rcases mapInsert_mem hp with e | hp
      · rw [e]
        rfl
      · exact h p hp
  | delSocket fd =>
    simp only [applyOp, delSocket] at hp
    split at hp
    · exact h p hp
    · split at hp
      · exact h p (mapErase_mem hp)
      · exact h p hp
  | addEvents sock ev =>
    have hev : bitAnd ev 7 = ev := by
      simpa [addsWithin7] using ho
    simp only [applyOp, addEvents] at hp
    split at hp
    · exact h p hp
    · rcases mapModify_mem hp with hp | ⟨v, hv, e⟩
      · exact h p hp
      · rw [e]
        exact within7_bitOr (h (_, v) hv) hev
  | delEvents sock ev =>
    simp only [applyOp, delEvents] at hp
    split at hp
    · rcases mapModify_mem hp with hp | ⟨v, hv, e⟩
      · exact h p hp
      · rw [e]
        exact within7_clear ev (h (_, v) hv)
    · exact h p hp

theorem applyOps_within7 {s : PollSet} (ops : List Op)
    (hops : ∀ o ∈ ops, addsWithin7 o = true)
    (h : ∀ p ∈ s.socket_info_, bitAnd p.2.events_ 7 = p.2.events_) :
    ∀ p ∈ (applyOps s ops).socket_info_, bitAnd p.2.events_ 7 = p.2.events_ := by
  induction ops generalizing s with
  | nil => exact h
  | cons o rest ih =>
    exact ih (fun o2 ho2 => hops o2 (List.mem_cons_of_mem _ ho2))
      (applyOp_within7 o (hops o (List.mem_cons_self _ _)) h)

/-- C20, as stated, fails: on a fresh PollSet with pipe (3, 4),
`addEvents 3 POLLHUP` returns true and leaves descriptor 3 with interest 17,
which has the `POLLHUP` bit outside 0x07. -/
theorem interest_beyond_7_counterexample :
    (addEvents (PollSet.new 3 4) 3 POLLHUP).1 = true ∧
    mapFind (addEvents (PollSet.new 3 4) 3 POLLHUP).2.socket_info_ 3
      = some { transport_ := none, func_ := some Callback.onLocalPipeEvents, fd_ := 3,
               events_ := 17 } ∧
    bitAnd 17 7 ≠ 17 ∧
    ¬ (∀ p ∈ (applyOps (PollSet.new 3 4) [Op.addEvents 3 POLLHUP]).socket_info_,
      bitAnd p.2.events_ 7 = p.2.events_) := by
  decide

/-- C20, amended: in every state reached from a constructed PollSet by calls of
`addSocket`, `delSocket`, `addEvents` and `delEvents` in which every `addEvents`
mask lies within `POLLIN | POLLPRI | POLLOUT` = 0x07 (the masks of `delEvents`
are arbitrary), every interest mask of the registry lies within 0x07: it has no
bit `k` with `k >= 3`. -/
theorem interest_within_7_invariant (r w : Int) (ops : List Op)
    (hops : ∀ o ∈ ops, addsWithin7 o = true) :
    ∀ p ∈ (applyOps (PollSet.new r w) ops).socket_info_,
      bitAnd p.2.events_ 7 = p.2.events_ ∧ ∀ k, 3 ≤ k → p.2.events_.testBit k = false := by
  intro p hp
  have h7 : bitAnd p.2.events_ 7 = p.2.events_ := by
    apply applyOps_within7 ops hops _ p hp
    intro q hq
    rw [new_registry, List.mem_singleton] at hq
    rw [hq]
    rfl
  refine ⟨h7, fun k hk => ?_⟩
  rw [← h7, testBit_bitAnd]
  have h : (7 : Int).testBit k = false := by
    show Nat.testBit 7 k = false
    exact Nat.testBit_lt_two_pow
      (lt_of_lt_of_le (by decide : 7 < 2 ^ 3) (Nat.pow_le_pow_right (by decide) hk))
  rw [h, Bool.and_false]

/-- Witness for C20 amended: masks 4 and 2 are added, -1 is removed. -/
theorem interest_within_7_invariant_witness :
    (applyOps (PollSet.new 3 4)
        [Op.addSocket 5 none none, Op.addEvents 5 POLLOUT, Op.addEvents 3 POLLPRI,
          Op.delEvents 5 (-1)]).socket_info_.map (fun p => (p.1, p.2.events_))
      = [(3, 3), (5, 0)] ∧
    (∀ p ∈ (applyOps (PollSet.new 3 4)
        [Op.addSocket 5 none none, Op.addEvents 5 POLLOUT, Op.addEvents 3 POLLPRI,
          Op.delEvents 5 (-1)]).socket_info_,
      bitAnd p.2.events_ 7 = p.2.events_ ∧ ∀ k, 3 ≤ k → p.2.events_.testBit k = false) :=
  ⟨by decide,
    interest_within_7_invariant 3 4
      [Op.addSocket 5 none none, Op.addEvents 5 POLLOUT, Op.addEvents 3 POLLPRI,
        Op.delEvents 5 (-1)]
      (by decide)⟩

/-! ## The dispatch loop, slot by slot -/

theorem clearRevents_other (s : PollSet) {i j : Nat} (h : j ≠ i) :
    (clearRevents s j).ufds_[i]? = s.ufds_[i]? := by
  simp only [clearRevents]
  exact List.getElem?_modify_ne _ _ h

/-- The body of the loop for slot `j` leaves every other slot as it was. -/
theorem dispatchSlot_other (beh : Behaviour) (s : PollSet) {i j : Nat} (h : j ≠ i) :
    (dispatchSlot beh s j).1.ufds_[i]? = s.ufds_[i]? := by
  simp only [dispatchSlot]
  split
  · rfl
  · split
    · rfl
    · split
      · rfl
      · split
        · split
          · rw [clearRevents_other _ h, applyOps_ufds]
          · exact clearRevents_other _ h
        · exact clearRevents_other _ h

/-- The first `n` rounds of the loop leave the slots from `n` on as `poll` left
them. -/
theorem dispatchLoop_later_slots (beh : Behaviour) (s : PollSet) (n : Nat) {i : Nat}
    (h : n ≤ i) : (dispatchLoop beh s n).1.ufds_[i]? = s.ufds_[i]? := by
  induction n with
  | zero => rfl
  | succ n ih =>
    rw [dispatchLoop_succ]
    show (dispatchSlot beh (dispatchLoop beh s n).1 n).1.ufds_[i]? = _
    rw [dispatchSlot_other _ _ (by omega), ih (by omega)]

/-- An invocation made by the body of the loop comes from a slot with a
registered descriptor, and is built from the entry found at lookup. -/
theorem dispatchSlot_mem {beh : Behaviour} {s : PollSet} {i : Nat} {inv : Invocation}
    (hinv : inv ∈ (dispatchSlot beh s i).2) :
    ∃ pfd info, s.ufds_[i]? = some pfd ∧ mapFind s.socket_info_ pfd.fd = some info ∧
      info.func_ = some inv.func ∧ bitAnd info.events_ pfd.revents ≠ 0 ∧
      inv = { slot := i, fd := pfd.fd, func := inv.func,
              arg := bitAnd pfd.revents info.events_ } := by
  cases hslot : s.ufds_[i]? with
  | none =>
    rw [dispatchSlot_skip_range hslot] at hinv
    cases hinv
  | some pfd =>
    by_cases hrev : pfd.revents = 0
    · rw [dispatchSlot_skip_zero hslot hrev] at hinv
      cases hinv
    · cases hreg : mapFind s.socket_info_ pfd.fd with
      | none =>
        rw [dispatchSlot_skip_absent hslot hreg] at hinv
        cases hinv
      | some info =>
        rw [dispatchSlot_invocations hslot hrev hreg] at hinv
        cases hf : info.func_ with
        | none => simp [hf] at hinv
        | some func =>
          simp only [hf] at hinv
          split at hinv
          · rename_i hne
            rw [List.mem_singleton] at hinv
            subst hinv
            exact ⟨pfd, info, rfl, hreg, hf, hne, rfl⟩
          · cases hinv

/-- Every invocation of the first `n` rounds of the loop belongs to a slot
below `n`; it was made when that slot was reached, from the value `poll` left in
the slot and the entry found in the registry at that moment. -/
theorem dispatchLoop_mem {beh : Behaviour} {s : PollSet} {n : Nat} {inv : Invocation}
    (hinv : inv ∈ (dispatchLoop beh s n).2) :
    inv.slot < n ∧
    ∃ pfd info, s.ufds_[inv.slot]? = some pfd ∧
      mapFind (dispatchLoop beh s inv.slot).1.socket_info_ pfd.fd = some info ∧
      info.func_ = some inv.func ∧ bitAnd info.events_ pfd.revents ≠ 0 ∧
      inv.fd = pfd.fd ∧ inv.arg = bitAnd pfd.revents info.events_ := by
  induction n with
  | zero => cases hinv
  | succ n ih =>
    rw [dispatchLoop_succ] at hinv
    rcases List.mem_append.1 hinv with h | h
    · obtain ⟨hlt, hrest⟩ := ih h
      exact ⟨by omega, hrest⟩
    · obtain ⟨pfd, info, hslot, hreg, hf, hne, e⟩ := dispatchSlot_mem h
      have hs : inv.slot = n := by rw [e]
      rw [dispatchLoop_later_slots beh s n (le_refl n)] at hslot
      refine ⟨by omega, pfd, info, ?_, ?_, hf, hne, by rw [e], by rw [e]⟩
      · rw [hs]
        exact hslot
      · rw [hs]
        exact hreg

/-- The invocations of `update` are those of its loop over the array as `poll`
left it. -/
theorem update_invocations (beh : Behaviour) (s : PollSet) (os : PollOutcome)
    {inv : Invocation} (hinv : inv ∈ (update beh s os).2) :
    inv ∈ (dispatchLoop beh
      (PollSet.mk (createNativePollset s).socket_info_ (createNativePollset s).sockets_changed_
        (pollWrite (createNativePollset s).ufds_ os.revents)
        (createNativePollset s).signal_pipe_)
      (createNativePollset s).ufds_.length).2 := by
  simp only [update] at hinv
  split at hinv
  · cases hinv
  · split at hinv
    · exact hinv
    · cases hinv

/-! ## Claims about what the dispatch hands over -/

/-- C13, as stated, fails: descriptors 5 and 6 are in the snapshot (slots 1 and
2) and both are reported `POLLIN`. The callback of 5 calls `delSocket 6`, which
returns true and leaves 6 without an entry, then registers 6 again under
callback 2 with interest `POLLIN`. When slot 2 is reached the lookup finds the
new entry, and its callback is invoked for the slot with the `revents` reported
before the removal. -/
theorem dispatch_after_readd_counterexample :
    (createNativePollset (applyOps (PollSet.new 3 4)
      [Op.addSocket 5 (some (Callback.user 0)) none, Op.addEvents 5 POLLIN,
        Op.addSocket 6 (some (Callback.user 1)) none, Op.addEvents 6 POLLIN])).ufds_[2]?
      = some { fd := 6, events := 1, revents := 0 } ∧
    (delSocket (createNativePollset (applyOps (PollSet.new 3 4)
      [Op.addSocket 5 (some (Callback.user 0)) none, Op.addEvents 5 POLLIN,
        Op.addSocket 6 (some (Callback.user 1)) none, Op.addEvents 6 POLLIN])) 6).1 = true ∧
    mapFind (delSocket (createNativePollset (applyOps (PollSet.new 3 4)
      [Op.addSocket 5 (some (Callback.user 0)) none, Op.addEvents 5 POLLIN,
        Op.addSocket 6 (some (Callback.user 1)) none, Op.addEvents 6 POLLIN])) 6).2.socket_info_ 6
      = none ∧
    (update
      (fun id _ _ =>
        if id = 0 then
          [Op.delSocket 6, Op.addSocket 6 (some (Callback.user 2)) none, Op.addEvents 6 POLLIN]
        else [])
      (applyOps (PollSet.new 3 4)
        [Op.addSocket 5 (some (Callback.user 0)) none, Op.addEvents 5 POLLIN,
          Op.addSocket 6 (some (Callback.user 1)) none, Op.addEvents 6 POLLIN])
      { ret := 2, revents := [0, 1, 1] }).2
      = [{ slot := 1, fd := 5, func := Callback.user 0, arg := 1 },
         { slot := 2, fd := 6, func := Callback.user 2, arg := 1 }] := by
  decide

/-- C13, amended (P4): when the loop of `update` reaches a slot whose descriptor
is not in the registry at that moment (removed by `delSocket` and not registered
again since), the round changes nothing and invokes nothing, whatever `revents`
the slot holds, and no invocation of the whole loop belongs to that slot. A
`delSocket` of the slot's descriptor (not negative) right before the slot is
reached puts it into this position. -/
theorem no_dispatch_on_absent (beh : Behaviour) (s : PollSet) (i : Nat) (pfd : pollfd)
    (hslot : (dispatchLoop beh s i).1.ufds_[i]? = some pfd)
    (habs : mapFind (dispatchLoop beh s i).1.socket_info_ pfd.fd = none) :
    dispatchLoop beh s (i + 1) = dispatchLoop beh s i ∧
    (∀ n, ∀ inv ∈ (dispatchLoop beh s n).2, inv.slot ≠ i) ∧
    (∀ st : PollSet, keysAscending st.socket_info_ → st.ufds_[i]? = some pfd → 0 ≤ pfd.fd →
      dispatchSlot beh (delSocket st pfd.fd).2 i = ((delSocket st pfd.fd).2, [])) := by
  refine ⟨?_, ?_, ?_⟩
  · rw [dispatchLoop_succ, dispatchSlot_skip_absent hslot habs]
    simp
  · intro n inv hinv hs
    obtain ⟨_, pfd2, info, hslot2, hreg, _⟩ := dispatchLoop_mem hinv
    rw [hs] at hslot2 hreg
    rw [dispatchLoop_later_slots beh s i (le_refl i), hslot2] at hslot
    cases hslot
    rw [habs] at hreg
    cases hreg
  · intro st hk hst hfd
    have hgone : mapFind (delSocket st pfd.fd).2.socket_info_ pfd.fd = none := by
      cases hf : mapFind st.socket_info_ pfd.fd with
      | none =>
        rw [delSocket_of_absent hf]
        exact hf
      | some v =>
        rw [delSocket_of_present hfd hf]
        exact mapFind_mapErase_self _ hk
    have hst2 : (delSocket st pfd.fd).2.ufds_[i]? = some pfd := by
      rw [delSocket_ufds]
      exact hst
    exact dispatchSlot_skip_absent hst2 hgone

/-- Witness for C13 amended: the callback of slot 0 deletes descriptor 5; slot 1, which
holds descriptor 5 with `POLLIN` reported, makes no invocation. -/
theorem no_dispatch_on_absent_witness :
    (dispatchLoop (fun id _ _ => if id = 0 then [Op.delSocket 5] else [])
      { socket_info_ :=
          [(3, { transport_ := none, func_ := some (Callback.user 0), fd_ := 3, events_ := 1 }),
           (5, { transport_ := none, func_ := some (Callback.user 1), fd_ := 5, events_ := 1 })],
        sockets_changed_ := true,
        ufds_ := [{ fd := 3, events := 1, revents := 1 }, { fd := 5, events := 1, revents := 1 }],
        signal_pipe_ := (7, 8) } 2).2
      = [{ slot := 0, fd := 3, func := Callback.user 0, arg := 1 }] :=
  ((no_dispatch_on_absent (fun id _ _ => if id = 0 then [Op.delSocket 5] else [])
      { socket_info_ :=
          [(3, { transport_ := none, func_ := some (Callback.user 0), fd_ := 3, events_ := 1 }),
           (5, { transport_ := none, func_ := some (Callback.user 1), fd_ := 5, events_ := 1 })],
        sockets_changed_ := true,
        ufds_ := [{ fd := 3, events := 1, revents := 1 }, { fd := 5, events := 1, revents := 1 }],
        signal_pipe_ := (7, 8) }
      1 { fd := 5, events := 1, revents := 1 } (by decide) (by decide)).1 ▸ (by decide))

/-- C15 (P5): every invocation made by `update` belongs to a slot of the array;
with `revents` the value `poll` left in that slot and `interest` the interest of
the entry found when the slot was reached, every bit of the mask handed over is a
bit of `revents & (interest | POLLERR | POLLHUP | POLLNVAL)`, and so a bit of
`revents`. -/
theorem dispatched_mask_within_report (beh : Behaviour) (s : PollSet) (os : PollOutcome)
    (inv : Invocation) (hinv : inv ∈ (update beh s os).2) :
    ∃ pfd info,
      (pollWrite (createNativePollset s).ufds_ os.revents)[inv.slot]? = some pfd ∧
      mapFind (dispatchLoop beh
        (PollSet.mk (createNativePollset s).socket_info_
          (createNativePollset s).sockets_changed_
          (pollWrite (createNativePollset s).ufds_ os.revents)
          (createNativePollset s).signal_pipe_) inv.slot).1.socket_info_ pfd.fd = some info ∧
      inv.fd = pfd.fd ∧
      (∀ k, inv.arg.testBit k = true →
        (bitAnd pfd.revents
          (bitOr info.events_ (bitOr POLLERR (bitOr POLLHUP POLLNVAL)))).testBit k = true) ∧
      (∀ k, inv.arg.testBit k = true → pfd.revents.testBit k = true) := by
  obtain ⟨_, pfd, info, hslot, hreg, _, _, hfd, harg⟩ :=
    dispatchLoop_mem (update_invocations beh s os hinv)
  refine ⟨pfd, info, hslot, hreg, hfd, fun k hk => ?_, fun k hk => ?_⟩
  · rw [harg, testBit_bitAnd, Bool.and_eq_true] at hk
    rw [testBit_bitAnd, testBit_bitOr, hk.1, hk.2]
    rfl
  · rw [harg, testBit_bitAnd, Bool.and_eq_true] at hk
    exact hk.1

/-- Witness for C15: descriptor 5 with interest `POLLIN` is reported
`POLLIN | POLLHUP` and handed `POLLIN`. -/
theorem dispatched_mask_within_report_witness :
    ∃ pfd info,
      (pollWrite (createNativePollset
        (applyOps (PollSet.new 3 4)
          [Op.addSocket 5 (some (Callback.user 0)) none, Op.addEvents 5 POLLIN])).ufds_
        [0, 17])[1]? = some pfd ∧
      mapFind (dispatchLoop (fun _ _ _ => [])
        (PollSet.mk
          (createNativePollset (applyOps (PollSet.new 3 4)
            [Op.addSocket 5 (some (Callback.user 0)) none, Op.addEvents 5 POLLIN])).socket_info_
          (createNativePollset (applyOps (PollSet.new 3 4)
            [Op.addSocket 5 (some (Callback.user 0)) none,
              Op.addEvents 5 POLLIN])).sockets_changed_
          (pollWrite (createNativePollset (applyOps (PollSet.new 3 4)
            [Op.addSocket 5 (some (Callback.user 0)) none, Op.addEvents 5 POLLIN])).ufds_
            [0, 17])
          (createNativePollset (applyOps (PollSet.new 3 4)
            [Op.addSocket 5 (some (Callback.user 0)) none, Op.addEvents 5 POLLIN])).signal_pipe_)
        1).1.socket_info_ pfd.fd = some info ∧
      (5 : Int) = pfd.fd ∧
      (∀ k, (1 : Int).testBit k = true →
        (bitAnd pfd.revents
          (bitOr info.events_ (bitOr POLLERR (bitOr POLLHUP POLLNVAL)))).testBit k = true) ∧
      (∀ k, (1 : Int).testBit k = true → pfd.revents.testBit k = true) :=
  dispatched_mask_within_report (fun _ _ _ => [])
    (applyOps (PollSet.new 3 4)
      [Op.addSocket 5 (some (Callback.user 0)) none, Op.addEvents 5 POLLIN])
    { ret := 1, revents := [0, 17] }
    { slot := 1, fd := 5, func := Callback.user 0, arg := 1 } (by decide)

/-! ## Accounting of accepted adds and dels -/

theorem mapInsert_perm_of_true {m : M_SocketInfo} {fd : Int} {info : SocketInfo}
    (h : (mapInsert m fd info).2 = true) :
    List.Perm (mapInsert m fd info).1 ((fd, info) :: m) := by
  induction m with
  | nil => exact List.Perm.refl _
  | cons p rest ih =>
    obtain ⟨k, w⟩ := p
    simp only [mapInsert] at h ⊢
    split
    · exact List.Perm.refl _
    · rename_i hlt
      rw [if_neg hlt] at h
      split
      · rename_i he
        rw [if_pos he] at h
        cases h
      · rename_i he
        rw [if_neg he] at h
        exact List.Perm.trans (List.Perm.cons _ (ih h)) (List.Perm.swap _ _ _)

theorem addSocket_accepted_keys {s : PollSet} {fd : Int} {f : SocketUpdateFunc}
    {t : TransportPtr} (h : (addSocket s fd f t).1 = true) :
    List.Perm ((addSocket s fd f t).2.socket_info_.map Prod.fst)
      (fd :: s.socket_info_.map Prod.fst) := by
  simp only [addSocket] at h ⊢
  split
  · rename_i hr
    rw [if_pos hr] at h
    cases h
  · rename_i hr
    have hins : (mapInsert s.socket_info_ fd
        { transport_ := t, func_ := f, fd_ := fd, events_ := 0 }).2 = true := by
      simpa using hr
    exact List.Perm.map Prod.fst (mapInsert_perm_of_true hins)

theorem addSocket_rejected_state {s : PollSet} {fd : Int} {f : SocketUpdateFunc}
    {t : TransportPtr} (h : (addSocket s fd f t).1 = false) : (addSocket s fd f t).2 = s := by
  simp only [addSocket] at h ⊢
  split
  · rfl
  · rename_i hr
    rw [if_neg hr] at h
    cases h

theorem delSocket_accepted_keys {s : PollSet} {fd : Int} (h : (delSocket s fd).1 = true) :
    List.Perm (s.socket_info_.map Prod.fst)
      (fd :: (delSocket s fd).2.socket_info_.map Prod.fst) := by
  by_cases hneg : fd < 0
  · rw [delSocket_of_negative hneg] at h
    cases h
  · cases hf : mapFind s.socket_info_ fd with
    | none =>
      rw [delSocket_of_absent hf] at h
      cases h
    | some v =>
      rw [delSocket_of_present (not_lt.1 hneg) hf]
      exact List.Perm.map Prod.fst (mapErase_perm hf)

theorem delSocket_rejected_state {s : PollSet} {fd : Int} (h : (delSocket s fd).1 = false) :
    (delSocket s fd).2 = s := by
  by_cases hneg : fd < 0
  · rw [delSocket_of_negative hneg]
  · cases hf : mapFind s.socket_info_ fd with
    | none => rw [delSocket_of_absent hf]
    | some v =>
      rw [delSocket_of_present (not_lt.1 hneg) hf] at h
      cases h

theorem addEvents_keys (s : PollSet) (sock mask : Int) :
    (addEvents s sock mask).2.socket_info_.map Prod.fst = s.socket_info_.map Prod.fst := by
  simp only [addEvents]
  split
  · rfl
  · exact mapModify_keys _ _ _

theorem delEvents_keys (s : PollSet) (sock mask : Int) :
    (delEvents s sock mask).2.socket_info_.map Prod.fst = s.socket_info_.map Prod.fst := by
  simp only [delEvents]
  split
  · exact mapModify_keys _ _ _
  · rfl

/-- Final keys together with the accepted dels are, up to order, the initial
keys together with the accepted adds. -/
theorem applyOps_keys_perm (s : PollSet) (ops : List Op) :
    List.Perm ((applyOps s ops).socket_info_.map Prod.fst ++ acceptedDels s ops)
      (s.socket_info_.map Prod.fst ++ acceptedAdds s ops) := by
  induction ops generalizing s with
  | nil => exact List.Perm.refl _
  | cons o rest ih =>
    cases o with
    | addSocket fd f t =>
      show List.Perm ((applyOps (addSocket s fd f t).2 rest).socket_info_.map Prod.fst
        ++ acceptedDels (addSocket s fd f t).2 rest) _
      simp only [acceptedAdds]
      cases hr : (addSocket s fd f t).1 with
      | true =>
        simp only [if_true]
        refine List.Perm.trans (ih _) ?_
        refine List.Perm.trans (List.Perm.append_right _ (addSocket_accepted_keys hr)) ?_
        exact List.perm_middle.symm
      | false =>
        simp only [Bool.false_eq_true, if_false]
        have h := ih (addSocket s fd f t).2
        rw [addSocket_rejected_state hr] at h ⊢
        exact h
    | delSocket fd =>
      show List.Perm ((applyOps (delSocket s fd).2 rest).socket_info_.map Prod.fst
        ++ acceptedDels s (Op.delSocket fd :: rest)) _
      simp only [acceptedAdds, acceptedDels]
      cases hr : (delSocket s fd).1 with
      | true =>
        simp only [if_true]
        refine List.Perm.trans List.perm_middle ?_
        refine List.Perm.trans (List.Perm.cons _ (ih _)) ?_
        exact List.Perm.append_right _ (delSocket_accepted_keys hr).symm
      | false =>
        simp only [Bool.false_eq_true, if_false]
        have h := ih (delSocket s fd).2
        rw [delSocket_rejected_state hr] at h ⊢
        exact h
    | addEvents sock ev =>
      have h := ih (addEvents s sock ev).2
      rw [addEvents_keys] at h
      exact h
    | delEvents sock ev =>
      have h := ih (delEvents s sock ev).2
      rw [delEvents_keys] at h
      exact h

theorem addEvents_isSome (s : PollSet) (sock mask fd : Int) :
    (mapFind (addEvents s sock mask).2.socket_info_ fd).isSome
      = (mapFind s.socket_info_ fd).isSome := by
  simp only [addEvents]
  split
  · rfl
  · show (mapFind (mapModify s.socket_info_ sock _) fd).isSome = _
    rw [mapFind_mapModify]
    split
    · rename_i e
      rw [e]
      cases mapFind s.socket_info_ sock <;> rfl
    · rfl

theorem delEvents_isSome (s : PollSet) (sock mask fd : Int) :
    (mapFind (delEvents s sock mask).2.socket_info_ fd).isSome
      = (mapFind s.socket_info_ fd).isSome := by
  simp only [delEvents]
  split
  · show (mapFind (mapModify s.socket_info_ sock _) fd).isSome = _
    rw [mapFind_mapModify]
    split
    · rename_i e
      rw [e]
      cases mapFind s.socket_info_ sock <;> rfl
    · rfl
  · rfl

/-- Whether `fd` is registered after a sequence of calls is told by the last
accepted add or del on it. -/
theorem lastAccepted_registered (fd : Int) (ops : List Op) (s : PollSet) (acc : Option Bool)
    (init : Bool) (hk : keysAscending s.socket_info_)
    (hacc : acc.getD init = (mapFind s.socket_info_ fd).isSome) :
    (lastAccepted fd s ops acc).getD init
      = (mapFind (applyOps s ops).socket_info_ fd).isSome := by
  induction ops generalizing s acc with
  | nil => exact hacc
  | cons o rest ih =>
    cases o with
    | addSocket fd2 f t =>
      show (lastAccepted fd (addSocket s fd2 f t).2 rest _).getD init
        = (mapFind (applyOps (addSocket s fd2 f t).2 rest).socket_info_ fd).isSome
      apply ih _ _ (addSocket_keysAscending fd2 f t hk)
      cases hf : mapFind s.socket_info_ fd2 with
      | some v =>
        rw [addSocket_of_present f t hk hf]
        simpa using hacc
      | none =>
        rw [addSocket_of_absent f t hf]
        show _ = (mapFind (mapInsert s.socket_info_ fd2 _).1 fd).isSome
        rw [mapFind_mapInsert_absent _ hf]
        by_cases e : fd2 = fd
        · subst e
          simp
        · have e2 : ¬ fd = fd2 := fun h => e h.symm
          simpa [e, e2] using hacc
    | delSocket fd2 =>
      show (lastAccepted fd (delSocket s fd2).2 rest _).getD init
        = (mapFind (applyOps (delSocket s fd2).2 rest).socket_info_ fd).isSome
      apply ih _ _ (delSocket_keysAscending fd2 hk)
      by_cases hneg : fd2 < 0
      · rw [delSocket_of_negative hneg]
        simpa using hacc
      · cases hf : mapFind s.socket_info_ fd2 with
        | none =>
          rw [delSocket_of_absent hf]
          simpa using hacc
        | some v =>
          rw [delSocket_of_present (not_lt.1 hneg) hf]
          show _ = (mapFind (mapErase s.socket_info_ fd2) fd).isSome
          by_cases e : fd2 = fd
          · subst e
            rw [mapFind_mapErase_self _ hk]
            simp
          · have e2 : fd ≠ fd2 := fun h => e h.symm
            rw [mapFind_mapErase_ne _ e2]
            simpa [e] using hacc
    | addEvents sock ev =>
      show (lastAccepted fd (addEvents s sock ev).2 rest acc).getD init
        = (mapFind (applyOps (addEvents s sock ev).2 rest).socket_info_ fd).isSome
      apply ih _ _ (addEvents_keysAscending sock ev hk)
      rw [addEvents_isSome]
      exact hacc
    | delEvents sock ev =>
      show (lastAccepted fd (delEvents s sock ev).2 rest acc).getD init
        = (mapFind (applyOps (delEvents s sock ev).2 rest).socket_info_ fd).isSome
      apply ih _ _ (delEvents_keysAscending sock ev hk)
      rw [delEvents_isSome]
      exact hacc

theorem keysAscending_nodup {m : M_SocketInfo} (h : keysAscending m) :
    (m.map Prod.fst).Nodup := by
  unfold keysAscending at h
  exact List.Pairwise.imp (fun hab => ne_of_lt hab) h

/-! ## Claim about the key set -/

/-- C14 (P1): after any sequence of calls of the mutation API on a registry,
the final keys are the initial keys plus the descriptors of the accepted
`addSocket` calls minus those of the accepted `delSocket` calls, as multisets
(final keys and accepted dels together are a permutation of initial keys and
accepted adds together); no key occurs twice; and a descriptor is registered at
the end exactly when the last accepted add or del on it was an add, or there was
none and it was registered at the start. -/
theorem registry_keys_accounting (s : PollSet) (ops : List Op)
    (hk : keysAscending s.socket_info_) :
    List.Perm ((applyOps s ops).socket_info_.map Prod.fst ++ acceptedDels s ops)
      (s.socket_info_.map Prod.fst ++ acceptedAdds s ops) ∧
    (((applyOps s ops).socket_info_.map Prod.fst : List Int) : Multiset Int)
      = ((s.socket_info_.map Prod.fst : List Int) : Multiset Int)
          + ((acceptedAdds s ops : List Int) : Multiset Int)
          - ((acceptedDels s ops : List Int) : Multiset Int) ∧
    ((applyOps s ops).socket_info_.map Prod.fst).Nodup ∧
    (∀ fd, (mapFind (applyOps s ops).socket_info_ fd).isSome
      = (lastAccepted fd s ops none).getD (mapFind s.socket_info_ fd).isSome) := by
  have hperm := applyOps_keys_perm s ops
  refine ⟨hperm, ?_, keysAscending_nodup (applyOps_keysAscending ops hk), fun fd => ?_⟩
  · have h := Multiset.coe_eq_coe.2 hperm
    rw [← Multiset.coe_add, ← Multiset.coe_add] at h
    rw [← h]
    exact (add_tsub_cancel_right _ _).symm
  · exact (lastAccepted_registered fd ops s none _ hk rfl).symm

/-- Witness for C14: on a fresh PollSet with pipe (3, 4), a rejected and an
accepted add, an accepted and a rejected del. -/
theorem registry_keys_accounting_witness :
    keysAscending (PollSet.new 3 4).socket_info_ ∧
    acceptedAdds (PollSet.new 3 4)
      [Op.addSocket 3 none none, Op.addSocket 5 none none, Op.delSocket 3, Op.delSocket 9,
        Op.addSocket 3 (some (Callback.user 2)) none, Op.delSocket 5] = [5, 3] ∧
    acceptedDels (PollSet.new 3 4)
      [Op.addSocket 3 none none, Op.addSocket 5 none none, Op.delSocket 3, Op.delSocket 9,
        Op.addSocket 3 (some (Callback.user 2)) none, Op.delSocket 5] = [3, 5] ∧
    List.Perm
      ((applyOps (PollSet.new 3 4)
        [Op.addSocket 3 none none, Op.addSocket 5 none none, Op.delSocket 3, Op.delSocket 9,
          Op.addSocket 3 (some (Callback.user 2)) none, Op.delSocket 5]).socket_info_.map Prod.fst
        ++ acceptedDels (PollSet.new 3 4)
          [Op.addSocket 3 none none, Op.addSocket 5 none none, Op.delSocket 3, Op.delSocket 9,
            Op.addSocket 3 (some (Callback.user 2)) none, Op.delSocket 5])
      ((PollSet.new 3 4).socket_info_.map Prod.fst
        ++ acceptedAdds (PollSet.new 3 4)
          [Op.addSocket 3 none none, Op.addSocket 5 none none, Op.delSocket 3, Op.delSocket 9,
            Op.addSocket 3 (some (Callback.user 2)) none, Op.delSocket 5]) :=
  ⟨by decide, by decide, by decide,
    (registry_keys_accounting (PollSet.new 3 4)
      [Op.addSocket 3 none none, Op.addSocket 5 none none, Op.delSocket 3, Op.delSocket 9,
        Op.addSocket 3 (some (Callback.user 2)) none, Op.delSocket 5] (by decide)).1⟩

/-! ## Order of dispatch within one update -/

theorem pollWrite_fds (u : List pollfd) (r : List Int) :
    (pollWrite u r).map (fun p => p.fd) = u.map (fun p => p.fd) := by
  induction u generalizing r with
  | nil => rfl
  | cons p ps ih =>
    cases r with
    | nil => rfl
    | cons x xs =>
      simp only [pollWrite, List.map_cons, ih]

/-- In an array whose descriptors ascend strictly, a lower slot holds a lower
descriptor. -/
theorem fd_lt_of_slot_lt {u : List pollfd}
    (h : List.Pairwise (fun a b => a < b) (u.map (fun p => p.fd))) {i j : Nat} {p q : pollfd}
    (hij : i < j) (hp : u[i]? = some p) (hq : u[j]? = some q) : p.fd < q.fd := by
  induction u generalizing i j with
  | nil => simp at hp
  | cons a rest ih =>
    rw [List.map_cons, List.pairwise_cons] at h
    cases j with
    | zero => omega
    | succ j2 =>
      rw [List.getElem?_cons_succ] at hq
      cases i with
      | zero =>
        rw [List.getElem?_cons_zero] at hp
        cases hp
        exact h.1 q.fd (List.mem_map_of_mem _ (List.getElem?_mem hq))
      | succ i2 =>
        rw [List.getElem?_cons_succ] at hp
        exact ih h.2 (by omega) hp hq

/-- One round of the loop makes at most one invocation. -/
theorem dispatchSlot_at_most_one (beh : Behaviour) (s : PollSet) (i : Nat) :
    (dispatchSlot beh s i).2.length ≤ 1 := by
  simp only [dispatchSlot]
  split
  · simp
  · split
    · simp
    · split
      · simp
      · split
        · split <;> simp
        · simp

/-- The invocations of the loop are made in strictly ascending slot order. -/
theorem dispatchLoop_slots_ascending (beh : Behaviour) (s : PollSet) (n : Nat) :
    List.Pairwise (fun a b : Invocation => a.slot < b.slot) (dispatchLoop beh s n).2 := by
  induction n with
  | zero => exact List.Pairwise.nil
  | succ n ih =>
    rw [dispatchLoop_succ, List.pairwise_append]
    refine ⟨ih, ?_, ?_⟩
    · have hlen := dispatchSlot_at_most_one beh (dispatchLoop beh s n).1 n
      cases hl : (dispatchSlot beh (dispatchLoop beh s n).1 n).2 with
      | nil => exact List.Pairwise.nil
      | cons x xs =>
        cases xs with
        | nil => exact List.pairwise_singleton _ _
        | cons y ys =>
          rw [hl] at hlen
          simp at hlen
    · intro a ha b hb
      obtain ⟨hlt, _⟩ := dispatchLoop_mem ha
      obtain ⟨_, _, _, _, _, _, e⟩ := dispatchSlot_mem hb
      have hb2 : b.slot = n := by rw [e]
      omega

/-- Over an array whose descriptors ascend strictly, the invocations of the
loop are made for strictly ascending descriptors. -/
theorem dispatchLoop_fds_ascending (beh : Behaviour) (s : PollSet) (n : Nat)
    (h : List.Pairwise (fun a b => a < b) (s.ufds_.map (fun p => p.fd))) :
    List.Pairwise (fun a b : Invocation => a.fd < b.fd) (dispatchLoop beh s n).2 := by
  refine List.Pairwise.imp_of_mem ?_ (dispatchLoop_slots_ascending beh s n)
  intro a b ha hb hab
  obtain ⟨_, p, _, hp, _, _, _, hfa, _⟩ := dispatchLoop_mem ha
  obtain ⟨_, q, _, hq, _, _, _, hfb, _⟩ := dispatchLoop_mem hb
  rw [hfa, hfb]
  exact fd_lt_of_slot_lt h hab hp hq

theorem at_most_one_of_fds_ascending {l : List Invocation}
    (h : List.Pairwise (fun a b : Invocation => a.fd < b.fd) l) (fd : Int) :
    (l.filter (fun inv => decide (inv.fd = fd))).length ≤ 1 := by
  induction l with
  | nil => simp
  | cons a rest ih =>
    rw [List.pairwise_cons] at h
    by_cases e : a.fd = fd
    · have hnone : rest.filter (fun inv => decide (inv.fd = fd)) = [] := by
        rw [List.filter_eq_nil_iff]
        intro b hb
        have := h.1 b hb
        simp only [decide_eq_true_eq]
        omega
      simp [List.filter_cons, e, hnone]
    · simp only [List.filter_cons, e, decide_False, Bool.false_eq_true, if_false]
      exact ih h.2

/-- The array that `createNativePollset` builds from a registry in key order
whose entries carry their key has strictly ascending descriptors. -/
theorem snapshot_fds_ascending {s : PollSet} (hflag : s.sockets_changed_ = true)
    (hk : keysAscending s.socket_info_) (hm : fdMatchesKey s.socket_info_) :
    List.Pairwise (fun a b => a < b) ((createNativePollset s).ufds_.map (fun p => p.fd)) := by
  rw [createNativePollset_changed hflag]
  show List.Pairwise _ (List.map _ (List.map _ s.socket_info_))
  rw [List.map_map]
  have hfun : List.map ((fun p : pollfd => p.fd) ∘
      (fun p : Int × SocketInfo =>
        ({ fd := p.2.fd_, events := toShort p.2.events_, revents := 0 } : pollfd)))
      s.socket_info_ = List.map Prod.fst s.socket_info_ := by
    apply List.map_congr_left
    intro p hp
    exact hm p hp
  rw [hfun]
  exact hk

/-- The invocations of `update` are none, or those of its loop over the array
as `poll` left it. -/
theorem update_trace_cases (beh : Behaviour) (s : PollSet) (os : PollOutcome) :
    (update beh s os).2 = [] ∨
    (update beh s os).2 = (dispatchLoop beh
      (PollSet.mk (createNativePollset s).socket_info_ (createNativePollset s).sockets_changed_
        (pollWrite (createNativePollset s).ufds_ os.revents)
        (createNativePollset s).signal_pipe_)
      (createNativePollset s).ufds_.length).2 := by
  simp only [update]
  split
  · exact Or.inl rfl
  · split
    · exact Or.inr rfl
    · exact Or.inl rfl

/-! ## Registry invariants along sequences of calls -/

theorem applyOp_fdMatchesKey {s : PollSet} (o : Op) (h : fdMatchesKey s.socket_info_) :
    fdMatchesKey (applyOp s o).socket_info_ := by
  intro p hp
  cases o with
  | addSocket fd f t =>
    simp only [applyOp, addSocket] at hp
    split at hp
    · exact h p hp
    · rcases mapInsert_mem hp with e | hp
      · rw [e]
      · exact h p hp
  | delSocket fd =>
    simp only [applyOp, delSocket] at hp
    split at hp
    · exact h p hp
    · split at hp
      · exact h p (mapErase_mem hp)
      · exact h p hp
  | addEvents sock ev =>
    simp only [applyOp, addEvents] at hp
    split at hp
    · exact h p hp
    · rcases mapModify_mem hp with hp | ⟨v, hv, e⟩
      · exact h p hp
      · rw [e]
        exact h (_, v) hv
  | delEvents sock ev =>
    simp only [applyOp, delEvents] at hp
    split at hp
    · rcases mapModify_mem hp with hp | ⟨v, hv, e⟩
      · exact h p hp
      · rw [e]
        exact h (_, v) hv
    · exact h p hp

/-- A property of the registry that every mutation call keeps is kept by a
sequence of them. -/
theorem applyOps_registry_inv {P : M_SocketInfo → Prop}
    (hP : ∀ (s : PollSet) (o : Op), P s.socket_info_ → P (applyOp s o).socket_info_)
    {s : PollSet} (ops : List Op) (h : P s.socket_info_) : P (applyOps s ops).socket_info_ := by
  induction ops generalizing s with
  | nil => exact h
  | cons o rest ih => exact ih (hP s o h)

theorem dispatchSlot_registry_inv {P : M_SocketInfo → Prop}
    (hP : ∀ (s : PollSet) (o : Op), P s.socket_info_ → P (applyOp s o).socket_info_)
    (beh : Behaviour) {s : PollSet} (i : Nat) (h : P s.socket_info_) :
    P (dispatchSlot beh s i).1.socket_info_ := by
  simp only [dispatchSlot]
  split
  · exact h
  · split
    · exact h
    · split
      · exact h
      · split
        · split
          · exact applyOps_registry_inv hP _ h
          · exact h
        · exact h

theorem dispatchLoop_registry_inv {P : M_SocketInfo → Prop}
    (hP : ∀ (s : PollSet) (o : Op), P s.socket_info_ → P (applyOp s o).socket_info_)
    (beh : Behaviour) {s : PollSet} (n : Nat) (h : P s.socket_info_) :
    P (dispatchLoop beh s n).1.socket_info_ := by
  induction n with
  | zero => exact h
  | succ n ih =>
    rw [dispatchLoop_succ]
    exact dispatchSlot_registry_inv hP beh n ih

theorem update_registry_inv {P : M_SocketInfo → Prop}
    (hP : ∀ (s : PollSet) (o : Op), P s.socket_info_ → P (applyOp s o).socket_info_)
    (beh : Behaviour) {s : PollSet} (os : PollOutcome) (h : P s.socket_info_) :
    P (update beh s os).1.socket_info_ := by
  have h1 : P (createNativePollset s).socket_info_ := by
    rw [createNativePollset_registry]
    exact h
  simp only [update]
  split
  · exact h1
  · split
    · exact dispatchLoop_registry_inv hP beh _ h1
    · exact h1

theorem runCalls_registry_inv {P : M_SocketInfo → Prop}
    (hP : ∀ (s : PollSet) (o : Op), P s.socket_info_ → P (applyOp s o).socket_info_)
    {s : PollSet} (cs : List Call) (h : P s.socket_info_) : P (runCalls s cs).socket_info_ := by
  induction cs generalizing s with
  | nil => exact h
  | cons c rest ih =>
    apply ih
    cases c with
    | op o => exact hP s o h
    | update beh os => exact update_registry_inv hP beh os h

/-- Every state reached from a constructed PollSet has its changed flag set,
its keys in strictly ascending order and every entry filed under its own `fd_`. -/
theorem runCalls_wellFormed (r w : Int) (cs : List Call) :
    (runCalls (PollSet.new r w) cs).sockets_changed_ = true ∧
    keysAscending (runCalls (PollSet.new r w) cs).socket_info_ ∧
    fdMatchesKey (runCalls (PollSet.new r w) cs).socket_info_ := by
  refine ⟨runCalls_flag cs (new_flag r w), ?_, ?_⟩
  · exact runCalls_registry_inv (fun s o h => applyOp_keysAscending o h) cs
      (new_keysAscending r w)
  · apply runCalls_registry_inv (fun s o h => applyOp_fdMatchesKey o h) cs
    rw [new_registry]
    intro p hp
    rw [List.mem_singleton] at hp
    rw [hp]

/-! ## Claim about one invocation per descriptor -/

/-- C21: in one `update` on a PollSet whose changed flag is set and whose
registry is in key order with every entry under its own `fd_` (every state
reached from the constructor is such), the invocations are made in strictly
ascending slot order, the array built by the rebuild has strictly ascending,
hence pairwise distinct, descriptors, and so the invocations are made for
strictly ascending descriptors: for every `fd` at most one invocation is made,
whatever the callbacks invoked earlier in the same `update` do to the registry. -/
theorem update_one_invocation_per_fd (beh : Behaviour) (s : PollSet) (os : PollOutcome)
    (hflag : s.sockets_changed_ = true) (hk : keysAscending s.socket_info_)
    (hm : fdMatchesKey s.socket_info_) :
    List.Pairwise (fun a b : Invocation => a.slot < b.slot) (update beh s os).2 ∧
    List.Pairwise (fun a b => a < b) ((createNativePollset s).ufds_.map (fun p => p.fd)) ∧
    ((createNativePollset s).ufds_.map (fun p => p.fd)).Nodup ∧
    List.Pairwise (fun a b : Invocation => a.fd < b.fd) (update beh s os).2 ∧
    (∀ fd, ((update beh s os).2.filter (fun inv => decide (inv.fd = fd))).length ≤ 1) := by
  have hsnap := snapshot_fds_ascending hflag hk hm
  have hfds : List.Pairwise (fun a b : Invocation => a.fd < b.fd) (update beh s os).2 := by
    rcases update_trace_cases beh s os with h | h
    · rw [h]
      exact List.Pairwise.nil
    · rw [h]
      apply dispatchLoop_fds_ascending
      show List.Pairwise _ ((pollWrite (createNativePollset s).ufds_ os.revents).map _)
      rw [pollWrite_fds]
      exact hsnap
  refine ⟨?_, hsnap, List.Pairwise.imp (fun hab => ne_of_lt hab) hsnap, hfds,
    at_most_one_of_fds_ascending hfds⟩
  rcases update_trace_cases beh s os with h | h
  · rw [h]
    exact List.Pairwise.nil
  · rw [h]
    exact dispatchLoop_slots_ascending _ _ _

/-- Witness for C21: the callback of descriptor 5 deletes and re-registers both
5 and 6 under itself; slot 2 then runs the new callback of 6, and each of the two
descriptors gets one invocation. -/
theorem update_one_invocation_per_fd_witness :
    (update
      (fun id _ _ =>
        if id = 0 then
          [Op.delSocket 6, Op.addSocket 6 (some (Callback.user 0)) none, Op.addEvents 6 POLLIN,
            Op.delSocket 5, Op.addSocket 5 (some (Callback.user 0)) none, Op.addEvents 5 POLLIN]
        else [])
      (applyOps (PollSet.new 3 4)
        [Op.addSocket 5 (some (Callback.user 0)) none, Op.addEvents 5 POLLIN,
          Op.addSocket 6 (some (Callback.user 1)) none, Op.addEvents 6 POLLIN])
      { ret := 2, revents := [0, 1, 1] }).2
      = [{ slot := 1, fd := 5, func := Callback.user 0, arg := 1 },
         { slot := 2, fd := 6, func := Callback.user 0, arg := 1 }] ∧
    List.Pairwise (fun a b : Invocation => a.fd < b.fd)
      (update
        (fun id _ _ =>
          if id = 0 then
            [Op.delSocket 6, Op.addSocket 6 (some (Callback.user 0)) none, Op.addEvents 6 POLLIN,
              Op.delSocket 5, Op.addSocket 5 (some (Callback.user 0)) none, Op.addEvents 5 POLLIN]
          else [])
        (applyOps (PollSet.new 3 4)
          [Op.addSocket 5 (some (Callback.user 0)) none, Op.addEvents 5 POLLIN,
            Op.addSocket 6 (some (Callback.user 1)) none, Op.addEvents 6 POLLIN])
        { ret := 2, revents := [0, 1, 1] }).2 :=
  ⟨by decide,
    (update_one_invocation_per_fd
      (fun id _ _ =>
        if id = 0 then
          [Op.delSocket 6, Op.addSocket 6 (some (Callback.user 0)) none, Op.addEvents 6 POLLIN,
            Op.delSocket 5, Op.addSocket 5 (some (Callback.user 0)) none, Op.addEvents 5 POLLIN]
        else [])
      (applyOps (PollSet.new 3 4)
        [Op.addSocket 5 (some (Callback.user 0)) none, Op.addEvents 5 POLLIN,
          Op.addSocket 6 (some (Callback.user 1)) none, Op.addEvents 6 POLLIN])
      { ret := 2, revents := [0, 1, 1] } (by decide) (by decide) (by decide)).2.2.2.1⟩

end ros
